import Mathlib

/-!
Verification development for the `tawnycalc` repository.

The development shallowly embeds the data structures of
`src/tawnycalc/data_objects.py` and the configuration/serialization logic of
`src/tawnycalc/core.py` as executable Lean definitions (association lists for
`OrderedDict`s, `Except`/paired-error results for Python exceptions), and
proves the specification's claims about them.
-/

deriving instance DecidableEq for Except

namespace TawnyCalc

/-! ## String-level utilities

Python tokenization primitives used by `Context.reload` and the output
scanners. They are defined on `List Char` (the character data of a `String`)
so that facts about them can be proved by list induction.
-/

/-- Characters of a line up to (excluding) the first `%` character:
Python `line.split("%", 1)[0]` as used by `Context.reload`. -/
def upToPercent : List Char → List Char
  | [] => []
  | c :: cs => if c = '%' then [] else c :: upToPercent cs

/-- Accumulator form of whitespace-run tokenization: `acc` holds the reversed
characters of the word currently being read. -/
def wordsAux : List Char → List Char → List (List Char)
  | [], acc => if acc.isEmpty then [] else [acc.reverse]
  | c :: cs, acc =>
    if c.isWhitespace then
      if acc.isEmpty then wordsAux cs [] else acc.reverse :: wordsAux cs []
    else wordsAux cs (c :: acc)

/-- Whitespace-run tokenization of a character list: the word list produced by
Python `str.split()` with no arguments. -/
def words (l : List Char) : List (List Char) := wordsAux l []

/-- Python `str.split()` (no arguments): whitespace-delimited tokens. -/
def pysplit (s : String) : List String :=
  (words s.data).map fun w => String.mk w

/-- A script-file line's directive tokens as computed by `Context.reload`:
comment stripping (`line.split("%", 1)[0]`) followed by whitespace
tokenization (`line.split()`). -/
def tokenize (s : String) : List String :=
  (words (upToPercent s.data)).map fun w => String.mk w

/-- Python `str.strip()`: surrounding whitespace removed. -/
def pystrip (s : String) : String :=
  String.mk (((s.data.dropWhile Char.isWhitespace).reverse.dropWhile
    Char.isWhitespace).reverse)

/-- Python `str.ljust(n)`: pad on the right with spaces to width `n`. -/
def ljust (s : String) (n : Nat) : String :=
  s ++ String.mk (List.replicate (n - s.length) ' ')

/-- Python `" ".join(items)`. -/
def joinSpace : List String → String
  | [] => ""
  | [t] => t
  | t :: ts => t ++ " " ++ joinSpace ts

/-- Cells of a table row joined by two spaces: the whitespace-token content of
one line produced by the external `tabulate(..., tablefmt="plain")` call
(tabulate pads cells with spaces into columns; the tokens of the rendered
line are exactly the nonempty cells, which is all the reload grammar sees). -/
def joinTwoSpace : List String → String
  | [] => ""
  | [t] => t
  | t :: ts => t ++ "  " ++ joinTwoSpace ts

/-- Python `" ".join(str(p).ljust(just) for p in item)`: the list branch of
`Context._get_string`. -/
def joinLjust (items : List String) (just : Nat) : String :=
  joinSpace (items.map fun p => ljust p just)

/-- How Python's `"{}".format` renders the scalar script values that occur:
a string renders as itself and `None` renders as `None`
(the non-list branch of `Context._get_string` returns the item unchanged). -/
def optStr : Option String → String
  | none => "None"
  | some s => s

/-- Lines of a file joined back by newlines: the text returned by `fp.read()`
for raw capture (up to a trailing newline, which no claim inspects). -/
def joinNL : List String → String
  | [] => ""
  | [l] => l
  | l :: ls => l ++ "\n" ++ joinNL ls

/-! ## Ordered dictionaries

Python `OrderedDict` (and the insertion-ordered `dict`s of Python 3) as
association lists: updating an existing key keeps its position, a new key is
appended at the end. -/

/-- `d[key]` lookup returning `none` when absent. -/
def odFind? {α : Type} : List (String × α) → String → Option α
  | [], _ => none
  | kv :: l, key => if kv.1 = key then some kv.2 else odFind? l key

/-- `d[key] = v`: replace in place when present, append when absent. -/
def odSet {α : Type} : List (String × α) → String → α → List (String × α)
  | [], key, v => [(key, v)]
  | kv :: l, key, v => if kv.1 = key then (key, v) :: l else kv :: odSet l key v

/-- Lookup with a default (`collections.defaultdict(lambda: 0)` reads). -/
def odGetD {α : Type} (l : List (String × α)) (key : String) (d : α) : α :=
  (odFind? l key).getD d

/-! ## Python exceptions

Exceptions raised by the embedded code. A `RuntimeError` whose message is
built by `str.format` is modelled as a constructor carrying exactly the data
interpolated into its message template, so "the message names X" is expressed
as "the error value carries X". -/

inductive PyErr where
  /-- `RuntimeError` of `thermodynamic_properties.add_data`: "Error parsing
  thermodynamic data. Expected property count (`expected`) is different from
  that encountered (`actual`) for phase '`phase`'." -/
  | thermoCountMismatch (expected actual : Nat) (phase : String)
  /-- `RuntimeError` of `rbi.add_phase`: "Error parsing 'rbi' data. Expected
  oxide count (`expected`) is different from that encountered (`actual`) for
  phase '`phase`'." -/
  | rbiCountMismatch (expected actual : Nat) (phase : String)
  /-- `IndexError` from an out-of-range `line[i]`. -/
  | indexError
  /-- `TypeError` from indexing or calling into a value of the wrong type. -/
  | typeError
  /-- `ValueError` from `float(...)`/`int(...)` on a malformed literal. -/
  | valueError
  /-- `KeyError` from a missing dictionary key. -/
  | keyError
  /-- `RuntimeError`: "'ask' is not supported setting from Python interface." -/
  | askNotSupported
  /-- `RuntimeError`: "'dataset' does not appear to be specified in
  'tc-prefs.txt' file." -/
  | missingDataset
  /-- `RuntimeError`: "'calcmode' does not appear to be specified in
  'tc-prefs.txt' file." -/
  | missingCalcmode
  /-- `RuntimeError`: "Python wrappers currently only support 'calcmode' 1." -/
  | unsupportedCalcmode
  /-- `RuntimeError`: "Your script must specify an 'axfile'." -/
  | missingAxfile
  /-- `RuntimeError`: "Your script must specify a valid 'axfile'." -/
  | nullAxfile
  /-- `FileNotFoundError` from `open` on a missing file. -/
  | fileNotFound (name : String)
deriving DecidableEq

/-- Does the error's message template mention the key `axfile`?  True exactly
for the two `check_config` messages "Your script must specify an 'axfile'."
and "Your script must specify a valid 'axfile'.". -/
def PyErr.namesAxfile : PyErr → Bool
  | .missingAxfile => true
  | .nullAxfile => true
  | _ => false

/-! ## `site_fractions` (data_objects.py 21-66) -/

structure site_fractions where
  entries : List (String × List (String × Option String))
  _data_title : Option String
deriving DecidableEq

/-- `site_fractions.__init__`. -/
def site_fractions.init : site_fractions := ⟨[], none⟩

/-- `site_fractions.add_data`: an odd-numbered call (cleared `_data_title`)
opens a new group named by the line's first token, with the remaining tokens
as column keys initialized to `None`; an even-numbered call fills the most
recently opened group by `zip`-ping its keys with the supplied tokens. -/
def site_fractions.add_data (sf : site_fractions) (line : List String) :
    Except PyErr site_fractions :=
  match sf._data_title with
  | none =>
    match line with
    | [] => .error .indexError
    | t :: rest =>
      let currentdict := rest.foldl (fun d tok => odSet d tok none) []
      .ok ⟨odSet sf.entries t currentdict, some t⟩
  | some title =>
    match odFind? sf.entries title with
    | none => .error .keyError
    | some currentdict =>
      let filled := ((currentdict.map Prod.fst).zip line).foldl
        (fun d kv => odSet d kv.1 (some kv.2)) currentdict
      .ok ⟨odSet sf.entries title filled, none⟩

/-! ## `thermodynamic_properties` (data_objects.py 138-156) -/

structure thermodynamic_properties where
  header : List String
  entries : List (String × List (String × String))
deriving DecidableEq

/-- `_tabled_data.__init__`: each header item is stripped of whitespace. -/
def thermodynamic_properties.make (header : List String) :
    thermodynamic_properties :=
  ⟨header.map pystrip, []⟩

/-- `thermodynamic_properties.add_data`.  Note that on a count mismatch the
message's `line[0]` is evaluated while building the `RuntimeError`, so an
empty line raises a bare `IndexError` instead. -/
def thermodynamic_properties.add_data (t : thermodynamic_properties)
    (line : List String) : Except PyErr thermodynamic_properties :=
  if line.length ≠ t.header.length + 1 then
    match line with
    | [] => .error .indexError
    | p :: _ => .error (.thermoCountMismatch t.header.length (line.length - 1) p)
  else
    match line with
    | [] => .error .indexError
    | p :: vals =>
      .ok ⟨t.header,
        odSet t.entries p
          ((t.header.zip vals).foldl (fun d kv => odSet d kv.1 kv.2) [])⟩

/-! ## `rbi` (data_objects.py 158-240) -/

structure rbi where
  oxides : List String
  entries : List (String × List (String × String))
deriving DecidableEq

/-- `rbi.__init__` for a token-list argument: the header entries are stripped
(`_tabled_data.__init__`) and `self.oxides = self.header`. -/
def rbi.make (oxides : List String) : rbi := ⟨oxides.map pystrip, []⟩

/-- `rbi.add_phase`.  The phase row is inserted holding only its `mode` entry
before the oxide-count check, so on a mismatch the raised error leaves the
half-built row in the table (the pair's first component is the table state on
return or on raise, the second the raised error if any). -/
def rbi.add_phase (t : rbi) (phase mode : String) (oxs : List String) :
    rbi × Option PyErr :=
  let phase := pystrip phase
  let entries1 := odSet t.entries phase [("mode", mode)]
  if t.oxides.length ≠ oxs.length then
    (⟨t.oxides, entries1⟩,
      some (.rbiCountMismatch t.oxides.length oxs.length phase))
  else
    (⟨t.oxides,
      odSet entries1 phase
        ((t.oxides.zip oxs).foldl (fun d kv => odSet d kv.1 kv.2)
          [("mode", mode)])⟩, none)

/-- `rbi.add_data`: `add_phase(line[0], line[1], line[2:])`; fewer than two
tokens raise `IndexError` while evaluating the arguments. -/
def rbi.add_data (t : rbi) (line : List String) : rbi × Option PyErr :=
  match line with
  | p :: m :: rest => t.add_phase p m rest
  | _ => (t, some .indexError)

/-- `rbi._generate_table_rows`: a header row with two leading empty cells,
then one row per phase with its key followed by its row values. -/
def rbi._generate_table_rows (t : rbi) : List (List String) :=
  (["", ""] ++ t.oxides) :: t.entries.map fun kv => kv.1 :: kv.2.map Prod.snd

/-- `rbi.__str__`: the cell `rbi` is inserted at the front of every generated
row and the rows are rendered by `tabulate(..., tablefmt="plain")`, one text
line per row (`joinTwoSpace` models the external tabulate rendering). -/
def rbi.str_lines (t : rbi) : List String :=
  (t._generate_table_rows.map fun r => "rbi" :: r).map joinTwoSpace

/-! ## The script model and the reload grammar (core.py 316-407) -/

/-- A value stored in `Context.script`: a scalar (string or `None`), the row
list a repeated key is demoted into, the nested `xyzguess` composition table,
or the nested `rbi` table. -/
inductive ScriptVal where
  | scalar : Option String → ScriptVal
  | rows : List (Option String) → ScriptVal
  | xyzT : List (String × List String) → ScriptVal
  | rbiT : rbi → ScriptVal
deriving DecidableEq

abbrev Script := List (String × ScriptVal)

/-- The state mutated by the script-file loop of `Context.reload`: the script
dictionary and the `defaultdict` of per-key occurrence counts. -/
structure ScriptState where
  script : Script
  keycount : List (String × Nat)
deriving DecidableEq

/-- The script dictionary `Context.reload` installs before reading any file
(core.py 326-328), with a fresh occurrence counter. -/
def defaultScriptState : ScriptState :=
  ⟨[("axfile", .scalar none), ("autoexit", .scalar (some "yes"))], []⟩

/-- The repeated-key bookkeeping of `Context.reload` (core.py 389-406) for a
directive that is not `xyzguess`/`rbi`: `value` is `None` for an argument-less
directive and the space-joined argument tokens otherwise.  The first
occurrence stores the value directly; the second demotes the stored scalar
into a row list holding it and appends; later occurrences append.  The
`typeError` branches model the exceptions Python would raise if the stored
value did not have the expected type (unreachable from `defaultScriptState`). -/
def applyKeycount (st : ScriptState) (key : String) (value : Option String) :
    Except PyErr ScriptState :=
  if odGetD st.keycount key 0 + 1 = 1 then
    .ok ⟨odSet st.script key (.scalar value),
      odSet st.keycount key (odGetD st.keycount key 0 + 1)⟩
  else if odGetD st.keycount key 0 + 1 = 2 then
    match odFind? st.script key with
    | some (.scalar prev) =>
      .ok ⟨odSet st.script key (.rows ([prev] ++ [value])),
        odSet st.keycount key (odGetD st.keycount key 0 + 1)⟩
    | _ => .error .typeError
  else
    match odFind? st.script key with
    | some (.rows l) =>
      .ok ⟨odSet st.script key (.rows (l ++ [value])),
        odSet st.keycount key (odGetD st.keycount key 0 + 1)⟩
    | _ => .error .typeError

/-- One non-blank, non-`*` directive line of `Context.reload`'s script loop
(core.py 374-406), given as first token and remaining tokens. -/
def reload_step (st : ScriptState) (key : String) (value : List String) :
    Except PyErr ScriptState :=
  if key = "xyzguess" then
    match value with
    | [] => .error .indexError
    | name :: vs =>
      match
        (match odFind? st.script "xyzguess" with
          | none => Except.ok []
          | some (.xyzT m) => Except.ok m
          | some _ => Except.error PyErr.typeError) with
      | .error e => .error e
      | .ok m =>
        .ok ⟨odSet st.script "xyzguess" (.xyzT (odSet m name vs)), st.keycount⟩
  else if key = "rbi" then
    match odFind? st.script "rbi" with
    | none => .ok ⟨odSet st.script "rbi" (.rbiT (rbi.make value)), st.keycount⟩
    | some (.rbiT t) =>
      match t.add_data value with
      | (t2, none) => .ok ⟨odSet st.script "rbi" (.rbiT t2), st.keycount⟩
      | (_, some e) => .error e
    | some _ => .error .typeError
  else
    match value with
    | [] => applyKeycount st key none
    | v :: vs =>
      if joinSpace (v :: vs) = "ask" then .error .askNotSupported
      else applyKeycount st key (some (joinSpace (v :: vs)))

/-- The line loop of `Context.reload`'s script-file reading (core.py 364-406)
over already-tokenized lines: blank (fully commented) lines are skipped and a
line whose first token is `*` stops the whole scan. -/
def reload_lines (st : ScriptState) : List (List String) → Except PyErr ScriptState
  | [] => .ok st
  | line :: rest =>
    match line with
    | [] => reload_lines st rest
    | key :: value =>
      if key = "*" then .ok st
      else
        match reload_step st key value with
        | .error e => .error e
        | .ok st2 => reload_lines st2 rest

/-- The script-file grammar of `Context.reload` (core.py 360-406) applied to
a file given as its newline-stripped lines, starting from the fresh defaults
the method installs first. -/
def parse_script_file (lines : List String) : Except PyErr ScriptState :=
  reload_lines defaultScriptState (lines.map tokenize)

/-! ## `save_script` (core.py 430-491) -/

/-- `Context._longest_key`. -/
def _longest_key {α : Type} (d : List (String × α)) : Nat :=
  d.foldl (fun longest kv =>
    if kv.1.length > longest then kv.1.length else longest) 0

/-- The lines `Context.save_script` writes for one script entry
(core.py 480-491): one line per row-list item, the `tabulate` block for an
`rbi` value, one `key subkey values` line per nested-dictionary entry, and a
single `key value` line (key left-justified) for a scalar. -/
def saveEntry (longest : Nat) (key : String) (v : ScriptVal) : List String :=
  match v with
  | .rows items => items.map fun it => key ++ " " ++ optStr it
  | .rbiT t => t.str_lines
  | .xyzT m => m.map fun kv => key ++ " " ++ kv.1 ++ " " ++ joinLjust kv.2 10
  | .scalar it => [ljust key (longest + 1) ++ " " ++ optStr it]

/-- `Context.save_script`: the text written to the file, as its lines. -/
def save_script (script : Script) : List String :=
  script.flatMap fun kv => saveEntry (_longest_key script) kv.1 kv.2

/-! ## Preferences, `check_config` and the `execute` prefix (core.py 410-607) -/

/-- A value in `Context.prefs`: the defaults put an `int` and `None` there,
a preferences file stores token strings. -/
inductive PrefVal where
  | int : Int → PrefVal
  | str : String → PrefVal
  | none : PrefVal
deriving DecidableEq

/-- Python `int(x)` on a string: optionally signed decimal numeral with
surrounding whitespace allowed, `ValueError` otherwise. -/
def pyIntOfString (s : String) : Except PyErr Int :=
  let t := ((s.data.dropWhile Char.isWhitespace).reverse.dropWhile
    Char.isWhitespace).reverse
  match t with
  | '-' :: ds =>
    if !ds.isEmpty && ds.all Char.isDigit then
      .ok (-(ds.foldl (fun a c => 10 * a + (c.toNat - 48)) 0 : Nat))
    else .error .valueError
  | '+' :: ds =>
    if !ds.isEmpty && ds.all Char.isDigit then
      .ok ((ds.foldl (fun a c => 10 * a + (c.toNat - 48)) 0 : Nat))
    else .error .valueError
  | ds =>
    if !ds.isEmpty && ds.all Char.isDigit then
      .ok ((ds.foldl (fun a c => 10 * a + (c.toNat - 48)) 0 : Nat))
    else .error .valueError

/-- Python `int(x)` on the preference values that occur. -/
def pyInt : PrefVal → Except PyErr Int
  | .int i => .ok i
  | .str s => pyIntOfString s
  | .none => .error .typeError

/-- The configuration owned by a `Context`: its preferences and its script. -/
structure CtxState where
  prefs : List (String × PrefVal)
  script : Script
deriving DecidableEq

/-- `Context.check_config` (core.py 410-427): the checks run in source order
and the first failure raises. -/
def check_config (st : CtxState) : Except PyErr Unit :=
  match odFind? st.prefs "dataset" with
  | none => .error .missingDataset
  | some _ =>
    match odFind? st.prefs "calcmode" with
    | none => .error .missingCalcmode
    | some cv =>
      match pyInt cv with
      | .error e => .error e
      | .ok n =>
        if n ≠ 1 then .error .unsupportedCalcmode
        else
          match odFind? st.script "axfile" with
          | none => .error .missingAxfile
          | some v =>
            if v = ScriptVal.scalar none then .error .nullAxfile
            else .ok ()

/-- The externally visible steps `Context.execute` performs before and up to
launching the subprocess (core.py 572-607), in source order. -/
inductive ExecAction where
  | savePrefs
  | saveScript
  | copyDataset
  | copyAxfile
  | launchSubprocess
deriving DecidableEq

/-- Control-flow skeleton of `Context.execute` up to the subprocess launch
(core.py 572-607): `self.check_config()` is the first statement; only when it
passes are the input files written and copied and the external program
launched.  Returns the actions performed and the raised error, if any. -/
def execute_actions (st : CtxState) : List ExecAction × Option PyErr :=
  match check_config st with
  | .error e => ([], some e)
  | .ok _ =>
    ([.savePrefs, .saveScript, .copyDataset, .copyAxfile, .launchSubprocess],
      none)

/-- The fixed defaults `Context.reload` installs before any file is read
(core.py 320-328): preferences `calcmode=1`, `scriptfile=` the context's
random identifier, `dataset=None`; script `axfile=None`, `autoexit="yes"`.
With `scripts_dir=None` (falsy) reload returns exactly this state. -/
def reload_defaults (id : String) : CtxState :=
  ⟨[("calcmode", .int 1), ("scriptfile", .str id), ("dataset", .none)],
    [("axfile", .scalar none), ("autoexit", .scalar (some "yes"))]⟩

/-! ## Output parsing (`Context.execute`, core.py 610-728) -/

/-- A value stored in the `ResultsDict` built by `Context.execute`.  Where the
code applies `float(tok)`, the converted token is recorded (`pyfloat`-style
constructors carry the raw token whose float value is stored); where it does
not, the raw string is stored as-is via `str`. -/
inductive RVal where
  | str : String → RVal
  | strList : List String → RVal
  | xyzV : List (String × String) → RVal
  | modesV : List (String × String) → RVal
  | rbiV : rbi → RVal
  | sfV : site_fractions → RVal
  | bulkV : List (String × String) → RVal
  | tpV : thermodynamic_properties → RVal
deriving DecidableEq

/-- Recognizer for the decimal literals Python `float(str)` accepts: optional
surrounding whitespace, optional sign, digits with at most one point and at
least one digit, optional `e`/`E` exponent with optional sign and digits. -/
def isPyFloat (s : String) : Bool :=
  let t := ((s.data.dropWhile Char.isWhitespace).reverse.dropWhile
    Char.isWhitespace).reverse
  let t2 := match t with
    | '+' :: r => r
    | '-' :: r => r
    | r => r
  let mant := t2.takeWhile fun c => c.isDigit || c == '.'
  let rest := t2.dropWhile fun c => c.isDigit || c == '.'
  let mantOK := ((mant.filter fun c => c == '.').length ≤ 1) &&
    mant.any Char.isDigit
  let expOK := match rest with
    | [] => true
    | e :: r =>
      (e == 'e' || e == 'E') &&
      (let r2 := match r with
        | '+' :: q => q
        | '-' :: q => q
        | q => q
      !r2.isEmpty && r2.all Char.isDigit)
  mantOK && expOK

/-- The `tc-log.txt` line scan of `Context.execute` (core.py 626-669), over
the file's newline-stripped lines.  The `THERMOCALC` version check only issues
advisory warnings, leaving the results unchanged; the `mode` branch consumes
the following line for its values (`fp.readline()`, empty at end of file). -/
def parse_tc_log_loop (results : List (String × RVal)) :
    List String → Except PyErr (List (String × RVal))
  | [] => .ok results
  | line :: rest =>
    match pysplit line with
    | [] => parse_tc_log_loop results rest
    | key :: value =>
      if key = "THERMOCALC" then parse_tc_log_loop results rest
      else if key = "rbi" then
        match odFind? results "rbi" with
        | none =>
          parse_tc_log_loop (odSet results "rbi" (.rbiV (rbi.make value))) rest
        | some (.rbiV t) =>
          match t.add_data value with
          | (t2, none) => parse_tc_log_loop (odSet results "rbi" (.rbiV t2)) rest
          | (_, some e) => .error e
        | some _ => .error .typeError
      else if key = "phases:" then
        parse_tc_log_loop (odSet results "phases" (.strList value)) rest
      else if key = "ptguess" then
        match value with
        | v0 :: v1 :: _ =>
          parse_tc_log_loop (odSet (odSet results "P" (.str v0)) "T" (.str v1))
            rest
        | _ => .error .indexError
      else if key = "xyzguess" then
        match value with
        | v0 :: v1 :: _ =>
          if isPyFloat v1 then
            match
              (match odFind? results "xyz" with
                | some (.xyzV m) => Except.ok m
                | none => Except.ok []
                | some _ => Except.error PyErr.typeError) with
            | .ok m =>
              parse_tc_log_loop (odSet results "xyz" (.xyzV (odSet m v0 v1)))
                rest
            | .error e => .error e
          else .error .valueError
        | _ => .error .indexError
      else if key = "mode" then
        match rest with
        | [] =>
          .ok (odSet results "modes" (.modesV []))
        | next :: rest2 =>
          let nextToks := pysplit next
          if (value.zip nextToks).all (fun kv => isPyFloat kv.2) then
            parse_tc_log_loop
              (odSet results "modes" (.modesV (value.zip nextToks))) rest2
          else .error .valueError
      else parse_tc_log_loop results rest

/-- Consume a blank-terminated section: the lines read and discarded by a
`while True: line = fp.readline(); if not line or line == "\n": break` loop,
i.e. everything up to and including the first blank line. -/
def dropSection (l : List String) : List String :=
  (l.dropWhile fun s => s != "").drop 1

/-- The site-fraction feeding loop of `Context.execute` (core.py 690-693):
each non-blank line is split and fed to the accumulator. -/
def feed_site_fractions (sf : site_fractions) :
    List String → Except PyErr site_fractions
  | [] => .ok sf
  | l :: rest =>
    match sf.add_data (pysplit l) with
    | .error e => .error e
    | .ok sf2 => feed_site_fractions sf2 rest

/-- The `bulk`-row retention loop of the oxide-compositions section
(core.py 699-705): only rows whose first token is `bulk` update the map,
zipping the header keys with the row's remaining tokens through `float`. -/
def feed_bulk (keys : List String) (bulk : List (String × String)) :
    List String → Except PyErr (List (String × String))
  | [] => .ok bulk
  | l :: rest =>
    match pysplit l with
    | [] => .error .indexError
    | t0 :: vals =>
      if t0 = "bulk" then
        if (keys.zip vals).all (fun kv => isPyFloat kv.2) then
          feed_bulk keys
            ((keys.zip vals).foldl (fun d kv => odSet d kv.1 kv.2) bulk) rest
        else .error .valueError
      else feed_bulk keys bulk rest

/-- The thermodynamic-property feeding loop (core.py 715-718). -/
def feed_thermo (tp : thermodynamic_properties) :
    List String → Except PyErr thermodynamic_properties
  | [] => .ok tp
  | l :: rest =>
    match tp.add_data (pysplit l) with
    | .error e => .error e
    | .ok tp2 => feed_thermo tp2 rest

/-- The `tc-<scriptfile>-ic.txt` section scan of `Context.execute`
(core.py 682-720), returning the results as mutated so far together with the
exception, if any, that aborted the scan (the caller catches it and only
warns).  After `oxide compositions`, only the first following block becomes
the thermodynamic-property table (the loop `break`s after one block). -/
def parse_tc_ic (results : List (String × RVal)) :
    List String → List (String × RVal) × Option PyErr
  | [] => (results, none)
  | line :: rest =>
    if pystrip line = "site fractions" then
      match feed_site_fractions site_fractions.init
          (rest.takeWhile fun s => s != "") with
      | .error e => (results, some e)
      | .ok sf =>
        parse_tc_ic (odSet results "site_fractions" (.sfV sf)) (dropSection rest)
    else if pystrip line = "oxide compositions" then
      let keys := pysplit ((rest.head?).getD "")
      let r1 := rest.tail
      match feed_bulk keys [] (r1.takeWhile fun s => s != "") with
      | .error e => (results, some e)
      | .ok bulk =>
        let results2 := odSet results "bulk_composition" (.bulkV bulk)
        match hr2 : dropSection r1 with
        | [] => parse_tc_ic results2 []
        | hd :: tl =>
          if hd = "" then parse_tc_ic results2 tl
          else
            match feed_thermo (thermodynamic_properties.make (pysplit hd))
                (tl.takeWhile fun s => s != "") with
            | .error e => (results2, some e)
            | .ok tp =>
              parse_tc_ic (odSet results2 "thermodynamic_properties" (.tpV tp))
                (dropSection tl)
    else parse_tc_ic results rest
termination_by l => l.length
decreasing_by
  all_goals
    have hds : ∀ l2 : List String, (dropSection l2).length ≤ l2.length := by
      intro l2
      unfold dropSection
      have h1 : ((l2.dropWhile fun s => s != "").length ≤ l2.length) := by
        induction l2 with
        | nil => simp
        | cons a as ih =>
          by_cases h : (a != "") = true
          · simp [List.dropWhile_cons, h]
            omega
          · simp [List.dropWhile_cons, h]
      simp
      omega
  all_goals simp_all
  · have := hds rest
    omega
  · have h1 := hds rest.tail
    rw [hr2] at h1
    have h2 : rest.tail.length ≤ rest.length := by
      cases rest <;> simp
    simp at h1
    omega
  · have h1 := hds rest.tail
    rw [hr2] at h1
    have h2 : rest.tail.length ≤ rest.length := by
      cases rest <;> simp
    have h3 := hds tl
    simp at h1
    omega

/-- Result assembly of `Context.execute` after the subprocess exits
(core.py 610-728).  `none` for a file argument means the file is missing, so
`open` raises `FileNotFoundError`.  The bare `except: raise` at core.py
671-672 re-raises any `tc-log.txt` parse failure (the `warnings.warn` call
after it is unreachable), and both raw-capture `open` calls (core.py 676 and
725) sit outside any `try`, so a missing artifact aborts the call there too;
only a parse failure of an existing ic file is downgraded to a warning. -/
def execute_outputs (stdout stderr : String) (scriptfile : String)
    (tc_log : Option (List String)) (tc_ic : Option (List String)) :
    Except PyErr (List (String × RVal)) :=
  let results : List (String × RVal) :=
    [("output_stdout", .str stdout), ("output_stderr", .str stderr)]
  match tc_log with
  | none => .error (.fileNotFound "tc-log.txt")
  | some logLines =>
    match parse_tc_log_loop results logLines with
    | .error e => .error e
    | .ok results1 =>
      let results2 := odSet results1 "output_tc_log" (.str (joinNL logLines))
      let results3 :=
        match tc_ic with
        | none => results2
        | some icLines => (parse_tc_ic results2 icLines).1
      match tc_ic with
      | none => .error (.fileNotFound ("tc-" ++ scriptfile ++ "-ic.txt"))
      | some icLines =>
        .ok (odSet results3 "output_tc_ic" (.str (joinNL icLines)))


/-! ## A reference model of `rbi.copy` with explicit row objects (C7)

`rbi.copy` is specified to deep-copy every row dictionary rather than alias
it.  Aliasing is invisible in a purely functional model, so for this one
claim the rows are held by reference into an explicit store of row objects:
`rbi.copy`'s `cpy[key] = val.copy()` allocates a fresh row object per entry,
and mutation is an in-place write to a row object. -/

structure Heap where
  next : Nat
  cells : List (Nat × List (String × String))
deriving DecidableEq

/-- Contents of the row object `r` (empty when unallocated). -/
def Heap.read (h : Heap) (r : Nat) : List (String × String) :=
  match h.cells.find? (fun kv => kv.1 == r) with
  | some kv => kv.2
  | none => []

/-- Allocate a fresh row object holding `row`; returns its reference. -/
def Heap.alloc (h : Heap) (row : List (String × String)) : Heap × Nat :=
  (⟨h.next + 1, (h.next, row) :: h.cells⟩, h.next)

/-- In-place update `row[key] = v` of the row object `r`. -/
def Heap.write (h : Heap) (r : Nat) (key v : String) : Heap :=
  ⟨h.next, h.cells.map fun kv => if kv.1 == r then (kv.1, odSet kv.2 key v) else kv⟩

/-- An `rbi` table whose rows are references to row objects in a `Heap`. -/
structure rbiRef where
  oxides : List String
  entries : List (String × Nat)
deriving DecidableEq

/-- The plain `rbi` value an `rbiRef` denotes: each row reference replaced by
the referenced row object's contents. -/
def rbiRef.toValue (h : Heap) (t : rbiRef) : rbi :=
  ⟨t.oxides, t.entries.map fun kv => (kv.1, h.read kv.2)⟩

/-- One iteration of `rbi.copy`'s row loop: `cpy[key] = val.copy()`, i.e. a
fresh row object holding the source row's contents is allocated and appended
to the copy under the same key. -/
def copyStep (acc : Heap × rbiRef) (kv : String × Nat) : Heap × rbiRef :=
  let a2 := (acc.1).alloc ((acc.1).read kv.2)
  (a2.1, ⟨acc.2.oxides, acc.2.entries ++ [(kv.1, a2.2)]⟩)

/-- `rbi.copy` (data_objects.py 233-240): `cpy = rbi(self.oxides)` (header
stripped again by the constructor) followed by `cpy[key] = val.copy()` for
every row — a fresh row object per entry holding the same contents. -/
def rbiRef.copy (h : Heap) (t : rbiRef) : Heap × rbiRef :=
  t.entries.foldl copyStep (h, ⟨t.oxides.map pystrip, []⟩)

/-- Concrete two-row heap table for the C7 witness (used only there). -/
def c7Heap : Heap :=
  ⟨2, [(0, [("mode", "0.1"), ("SiO2", "2.0")]),
       (1, [("mode", "0.9"), ("SiO2", "1.0")])]⟩

/-- Concrete table over `c7Heap` for the C7 witness (used only there). -/
def c7Tab : rbiRef := ⟨["SiO2"], [("g", 0), ("mu", 1)]⟩

/-- The group contents the even-numbered `site_fractions.add_data` call
produces: the column keys paired positionally with the value tokens, surplus
values dropped and surplus keys left at `None`. -/
def groupFill : List String → List String → List (String × Option String)
  | [], _ => []
  | c :: cs, [] => (c, none) :: groupFill cs []
  | c :: cs, v :: vs => (c, some v) :: groupFill cs vs

/-- A string usable as a single directive token: nonempty, without whitespace
and without the comment character. -/
def isTokStr (s : String) : Bool :=
  !s.data.isEmpty && s.data.all fun c => !c.isWhitespace && c != '%'

/-- The character following a token boundary: end of line or whitespace. -/
def NextWs (l : List Char) : Prop :=
  l = [] ∨ ∃ c l2, l = c :: l2 ∧ c.isWhitespace

/-- `Rend ts l`: the characters `l` are an interleaving of whitespace and the
whitespace-free, `%`-free nonempty tokens `ts`, each token followed by a
whitespace character or the end of the line. -/
inductive Rend : List String → List Char → Prop where
  | nil : Rend [] []
  | ws (c : Char) (ts : List String) (l : List Char) :
      c.isWhitespace → Rend ts l → Rend ts (c :: l)
  | tok (t : List Char) (ts : List String) (l : List Char) :
      t ≠ [] → (∀ c ∈ t, ¬c.isWhitespace ∧ c ≠ '%') →
      NextWs l → Rend ts l → Rend (String.mk t :: ts) (t ++ l)

/-- The directive lines the reload loop actually processes: blank (or fully
commented) lines are dropped and everything from the first `*`-headed line
onward is ignored. -/
def effectiveLines : List (List String) → List (List String)
  | [] => []
  | line :: rest =>
    match line with
    | [] => effectiveLines rest
    | key :: _ => if key = "*" then [] else line :: effectiveLines rest

/-- The value one non-special directive line stores: `None` without
arguments, the space-joined argument tokens otherwise. -/
def lineVal (value : List String) : Option String :=
  match value with
  | [] => none
  | v :: vs => some (joinSpace (v :: vs))

/-- The per-occurrence values of a directive key in a tokenized script file,
in occurrence order. -/
def occVals (key : String) (lines : List (List String)) : List (Option String) :=
  (effectiveLines lines).filterMap fun line =>
    match line with
    | [] => none
    | k :: vs => if k = key then some (lineVal vs) else none

/-- The invariant tying a key's occurrence count to its stored
representation: after `sofar` occurrences the keycount equals their number
and the script holds a bare scalar after one occurrence, the ordered row list
of all occurrence values after two or more. -/
def KeyInv (st : ScriptState) (key : String) (sofar : List (Option String)) :
    Prop :=
  odGetD st.keycount key 0 = sofar.length ∧
  match sofar with
  | [] => True
  | [v] => odFind? st.script key = some (.scalar v)
  | _ => odFind? st.script key = some (.rows sofar)

/-- Re-parsing a serialized script with the script-file grammar of
`Context.reload` (defaults installed first, then the line loop), keeping just
the resulting script dictionary. -/
def reparse_script (lines : List String) : Except PyErr Script :=
  (parse_script_file lines).map fun st => st.script

/-- A scalar value that survives the round trip: a nonempty, space-normalized
join of comment-free tokens, other than the rejected sentinel `ask`. -/
def scalarOK (v : String) : Prop :=
  pysplit v ≠ [] ∧ (∀ t ∈ pysplit v, isTokStr t = true) ∧
    joinSpace (pysplit v) = v ∧ v ≠ "ask"

instance (v : String) : Decidable (scalarOK v) := by
  unfold scalarOK
  infer_instance

/-- A row-list item that survives the round trip: a well-formed scalar string
(a `None` item would be serialized as the literal `None`). -/
def rowItemOK : Option String → Prop
  | none => False
  | some v => scalarOK v

instance (it : Option String) : Decidable (rowItemOK it) := by
  unfold rowItemOK
  cases it <;> infer_instance

/-- A well-formed `xyzguess` table entry: token name, token value list. -/
def xyzEntryOK (e : String × List String) : Prop :=
  isTokStr e.1 = true ∧ ∀ t ∈ e.2, isTokStr t = true

instance (e : String × List String) : Decidable (xyzEntryOK e) := by
  unfold xyzEntryOK
  infer_instance

/-- A well-formed `rbi` row as `add_phase` builds it: the `mode` entry first,
then one token value per oxide column, in column order. -/
def rbiRowOK (oxides : List String) (row : List (String × String)) : Prop :=
  match row with
  | ("mode", m) :: rest =>
      isTokStr m = true ∧ rest.map Prod.fst = oxides ∧
        ∀ q ∈ rest, isTokStr q.2 = true
  | _ => False

instance (oxides : List String) (row : List (String × String)) :
    Decidable (rbiRowOK oxides row) := by
  unfold rbiRowOK
  split <;> infer_instance

/-- A well-formed `rbi` table as the reload grammar produces it. -/
def rbiWF (t : rbi) : Prop :=
  (∀ ox ∈ t.oxides, isTokStr ox = true) ∧ t.oxides.Nodup ∧
    "mode" ∉ t.oxides ∧ (t.entries.map Prod.fst).Nodup ∧
    ∀ e ∈ t.entries, isTokStr e.1 = true ∧ rbiRowOK t.oxides e.2

instance (t : rbi) : Decidable (rbiWF t) := by
  unfold rbiWF
  infer_instance

/-- A well-formed script entry: non-special keys are comment-free tokens with
defined scalar values or row lists of at least two defined values; the
`xyzguess` and `rbi` keys hold their nested tables (nonempty for `xyzguess`,
whose serialization is one line per entry). -/
def entryOK (kv : String × ScriptVal) : Prop :=
  match kv.2 with
  | .scalar none => False
  | .scalar (some v) =>
      isTokStr kv.1 = true ∧ kv.1 ≠ "*" ∧ kv.1 ≠ "xyzguess" ∧ kv.1 ≠ "rbi" ∧
        scalarOK v
  | .rows items =>
      isTokStr kv.1 = true ∧ kv.1 ≠ "*" ∧ kv.1 ≠ "xyzguess" ∧ kv.1 ≠ "rbi" ∧
        2 ≤ items.length ∧ ∀ it ∈ items, rowItemOK it
  | .xyzT m =>
      kv.1 = "xyzguess" ∧ m ≠ [] ∧ (m.map Prod.fst).Nodup ∧ ∀ e ∈ m, xyzEntryOK e
  | .rbiT t => kv.1 = "rbi" ∧ rbiWF t

instance (kv : String × ScriptVal) : Decidable (entryOK kv) := by
  unfold entryOK
  split <;> infer_instance

/-- A well-formed script model: it starts with the two entries reload's
defaults pre-install — a defined `axfile` scalar, then `autoexit` — its keys
are pairwise distinct, and every entry is well formed. -/
def modelWF (m : Script) : Prop :=
  match m with
  | ("axfile", ScriptVal.scalar (some _)) ::
      ("autoexit", ScriptVal.scalar (some _)) :: _ =>
      (m.map Prod.fst).Nodup ∧ ∀ kv ∈ m, entryOK kv
  | _ => False

instance (m : Script) : Decidable (modelWF m) := by
  unfold modelWF
  split <;> infer_instance

/-- The token lines a well-formed entry's serialized block carries. -/
def entryTokens (kv : String × ScriptVal) : List (List String) :=
  match kv.2 with
  | .scalar v => [kv.1 :: pysplit (optStr v)]
  | .rows items => items.map fun it => kv.1 :: pysplit (optStr it)
  | .xyzT m => m.map fun e => kv.1 :: e.1 :: e.2
  | .rbiT t =>
      ("rbi" :: t.oxides) :: t.entries.map fun e => "rbi" :: e.1 :: e.2.map Prod.snd

theorem length_dropSection_le (l : List String) :
    (dropSection l).length ≤ l.length := by
  unfold dropSection
  have h1 : ((l.dropWhile fun s => s != "").length ≤ l.length) := by
    induction l with
    | nil => simp
    | cons a as ih =>
      by_cases h : (a != "") = true
      · simp [List.dropWhile_cons, h]
        omega
      · simp [List.dropWhile_cons, h]
  simp
  omega

/-! ## Ordered-dictionary lemmas -/

theorem odFind?_set_self {α : Type} (l : List (String × α)) (k : String) (v : α) :
    odFind? (odSet l k v) k = some v := by
  induction l with
  | nil => simp [odSet, odFind?]
  | cons kv l ih =>
    by_cases h : kv.1 = k
    · simp [odSet, odFind?, h]
    · simp [odSet, odFind?, h, ih]

theorem odFind?_set_ne {α : Type} (l : List (String × α)) (k : String) (v : α)
    (k' : String) (h : k' ≠ k) : odFind? (odSet l k v) k' = odFind? l k' := by
  induction l with
  | nil =>
    simp only [odSet, odFind?]
    rw [if_neg (Ne.symm h)]
  | cons kv l ih =>
    by_cases hk : kv.1 = k
    · have hne : ¬ kv.1 = k' := by rw [hk]; exact Ne.symm h
      simp only [odSet, if_pos hk, odFind?]
      rw [if_neg (Ne.symm h), if_neg hne]
    · simp only [odSet, if_neg hk, odFind?]
      by_cases hk' : kv.1 = k'
      · rw [if_pos hk', if_pos hk']
      · rw [if_neg hk', if_neg hk', ih]

theorem not_mem_map_fst_cons {α : Type} (kv : String × α) (l : List (String × α))
    (k : String) (h : k ∉ ((kv :: l).map Prod.fst)) :
    ¬ kv.1 = k ∧ k ∉ l.map Prod.fst := by
  rw [List.map_cons] at h
  constructor
  · intro hh
    exact h (hh ▸ List.mem_cons_self _ _)
  · intro hh
    exact h (List.mem_cons_of_mem _ hh)

theorem odSet_fresh {α : Type} (l : List (String × α)) (k : String) (v : α)
    (h : k ∉ l.map Prod.fst) : odSet l k v = l ++ [(k, v)] := by
  induction l with
  | nil => simp [odSet]
  | cons kv l ih =>
    obtain ⟨h1, h2⟩ := not_mem_map_fst_cons kv l k h
    simp [odSet, h1, ih h2]

theorem odFind?_not_mem {α : Type} (l : List (String × α)) (k : String)
    (h : k ∉ l.map Prod.fst) : odFind? l k = none := by
  induction l with
  | nil => simp [odFind?]
  | cons kv l ih =>
    obtain ⟨h1, h2⟩ := not_mem_map_fst_cons kv l k h
    simp [odFind?, h1, ih h2]

theorem odFind?_append_right {α : Type} (l1 l2 : List (String × α)) (k : String)
    (h : k ∉ l1.map Prod.fst) : odFind? (l1 ++ l2) k = odFind? l2 k := by
  induction l1 with
  | nil => simp
  | cons kv l ih =>
    obtain ⟨h1, h2⟩ := not_mem_map_fst_cons kv l k h
    simp only [List.cons_append, odFind?, if_neg h1]
    exact ih h2

theorem odFind?_append_left {α : Type} (l1 l2 : List (String × α)) (k : String)
    (h : odFind? l1 k ≠ none) : odFind? (l1 ++ l2) k = odFind? l1 k := by
  induction l1 with
  | nil => simp [odFind?] at h
  | cons kv l ih =>
    by_cases hk : kv.1 = k
    · simp only [List.cons_append, odFind?, if_pos hk]
    · simp only [odFind?, if_neg hk] at h
      simp only [List.cons_append, odFind?, if_neg hk]
      exact ih h

theorem odFind?_mem {α : Type} (l : List (String × α)) (k : String) (v : α)
    (h : odFind? l k = some v) : (k, v) ∈ l := by
  induction l with
  | nil => simp [odFind?] at h
  | cons kv l ih =>
    by_cases hk : kv.1 = k
    · simp only [odFind?, if_pos hk] at h
      have hv : kv.2 = v := Option.some.inj h
      have : kv = (k, v) := by
        cases kv
        simp only [Prod.mk.injEq]
        exact ⟨hk, hv⟩
      rw [← this]
      exact List.mem_cons_self _ _
    · simp only [odFind?, if_neg hk] at h
      exact List.mem_cons_of_mem _ (ih h)

/-! ## Heap lemmas for the `rbi.copy` reference model -/

theorem Heap.read_alloc_self (h : Heap) (row : List (String × String)) :
    ((h.alloc row).1).read (h.alloc row).2 = row := by
  simp [Heap.alloc, Heap.read, List.find?]

theorem Heap.read_alloc_ne (h : Heap) (row : List (String × String)) (r : Nat)
    (hr : r ≠ h.next) : ((h.alloc row).1).read r = h.read r := by
  have hb : (h.next == r) = false := by
    simp only [beq_eq_false_iff_ne]
    exact Ne.symm hr
  simp [Heap.alloc, Heap.read, List.find?, hb]

theorem read_write_ne_aux (l : List (Nat × List (String × String)))
    (r2 r : Nat) (key v : String) (hr : r ≠ r2) :
    (match (l.map fun kv =>
        if kv.1 == r2 then (kv.1, odSet kv.2 key v) else kv).find?
        (fun kv => kv.1 == r) with
      | some kv => kv.2
      | none => ([] : List (String × String))) =
    (match l.find? (fun kv => kv.1 == r) with
      | some kv => kv.2
      | none => []) := by
  induction l with
  | nil => simp
  | cons kv l ih =>
    by_cases hk2 : (kv.1 == r2) = true
    · have hk2' : kv.1 = r2 := by simpa using hk2
      have hkr : (kv.1 == r) = false := by
        simp only [beq_eq_false_iff_ne]
        rw [hk2']
        exact Ne.symm hr
      simp only [List.map_cons, if_pos hk2]
      simp only [List.find?_cons, hkr]
      exact ih
    · simp only [List.map_cons]
      rw [if_neg hk2]
      by_cases hkr : (kv.1 == r) = true
      · simp only [List.find?_cons, hkr]
      · have hkr' : (kv.1 == r) = false := by
          cases hb : (kv.1 == r)
          · rfl
          · exact absurd hb hkr
        simp only [List.find?_cons, hkr']
        exact ih

/-- Invariants of `rbi.copy`'s row loop: starting from a heap `h0` that
extends the source heap `h`, folding `copyStep` over the remaining source
entries (whose references live in `h`) allocates only fresh objects, leaves
every pre-existing object unchanged, and appends to the copy one entry per
source entry whose fresh object holds the source row's contents. -/
theorem copy_fold (h : Heap) (es : List (String × Nat)) :
    ∀ (h0 : Heap) (acc : rbiRef),
    (∀ kv ∈ es, kv.2 < h.next) →
    h.next ≤ h0.next →
    (∀ r, r < h.next → h0.read r = h.read r) →
    (∀ kv ∈ acc.entries, kv.2 < h0.next) →
    ((es.foldl copyStep (h0, acc)).1.next = h0.next + es.length) ∧
    (∀ r, r < h0.next →
      (es.foldl copyStep (h0, acc)).1.read r = h0.read r) ∧
    ((es.foldl copyStep (h0, acc)).2.oxides = acc.oxides) ∧
    ((es.foldl copyStep (h0, acc)).2.entries.map
        (fun kv => (kv.1, (es.foldl copyStep (h0, acc)).1.read kv.2)) =
      acc.entries.map (fun kv => (kv.1, h0.read kv.2)) ++
        es.map (fun kv => (kv.1, h.read kv.2))) ∧
    (∀ kv ∈ (es.foldl copyStep (h0, acc)).2.entries,
      kv.2 < (es.foldl copyStep (h0, acc)).1.next ∧
        (kv ∈ acc.entries ∨ h0.next ≤ kv.2)) := by
  induction es with
  | nil =>
    intro h0 acc _ _ _ hacc
    refine ⟨by simp, fun r _ => rfl, rfl, by simp, fun kv hkv => ?_⟩
    exact ⟨hacc kv hkv, Or.inl hkv⟩
  | cons e es ih =>
    intro h0 acc hes hnext hread hacc
    have hstep : copyStep (h0, acc) e =
        ((h0.alloc (h0.read e.2)).1,
          ⟨acc.oxides, acc.entries ++ [(e.1, h0.next)]⟩) := rfl
    rw [List.foldl_cons, hstep]
    have h1next : ((h0.alloc (h0.read e.2)).1).next = h0.next + 1 := rfl
    have hread1 : ∀ r, r < h0.next →
        ((h0.alloc (h0.read e.2)).1).read r = h0.read r := by
      intro r hr
      exact Heap.read_alloc_ne h0 _ r (by omega)
    have hreadnew : ((h0.alloc (h0.read e.2)).1).read h0.next = h0.read e.2 :=
      Heap.read_alloc_self h0 _
    have he2 : e.2 < h.next := hes e (List.mem_cons_self _ _)
    obtain ⟨ih1, ih2, ih3, ih4, ih5⟩ :=
      ih (h0.alloc (h0.read e.2)).1 ⟨acc.oxides, acc.entries ++ [(e.1, h0.next)]⟩
        (fun kv hkv => hes kv (List.mem_cons_of_mem _ hkv))
        (by rw [h1next]; omega)
        (by
          intro r hr
          rw [hread1 r (by omega)]
          exact hread r hr)
        (by
          intro kv hkv
          rw [h1next]
          rcases List.mem_append.mp hkv with hkv | hkv
          · exact Nat.lt_succ_of_lt (hacc kv hkv)
          · obtain rfl := List.mem_singleton.mp hkv
            exact Nat.lt_succ_self _)
    refine ⟨by rw [ih1, h1next]; simp; omega, ?_, by rw [ih3], ?_, ?_⟩
    · intro r hr
      rw [ih2 r (by rw [h1next]; omega)]
      exact hread1 r hr
    · rw [ih4]
      have hmapacc :
          (acc.entries ++ [(e.1, h0.next)]).map
            (fun kv => (kv.1, ((h0.alloc (h0.read e.2)).1).read kv.2)) =
          acc.entries.map (fun kv => (kv.1, h0.read kv.2)) ++
            [(e.1, h.read e.2)] := by
        rw [List.map_append]
        congr 1
        · apply List.map_congr_left
          intro kv hkv
          rw [hread1 kv.2 (hacc kv hkv)]
        · simp only [List.map_cons, List.map_nil]
          rw [hreadnew, hread e.2 he2]
      rw [hmapacc, List.append_assoc]
      rfl
    · intro kv hkv
      obtain ⟨hlt, hmem⟩ := ih5 kv hkv
      refine ⟨hlt, ?_⟩
      rcases hmem with hmem | hmem
      · rcases List.mem_append.mp hmem with hmem | hmem
        · exact Or.inl hmem
        · obtain rfl := List.mem_singleton.mp hmem
          exact Or.inr le_rfl
      · right
        rw [h1next] at hmem
        omega

theorem Heap.read_write_ne (h : Heap) (r2 : Nat) (key v : String) (r : Nat)
    (hr : r ≠ r2) : (h.write r2 key v).read r = h.read r := by
  show (match ((h.cells.map fun kv =>
      if kv.1 == r2 then (kv.1, odSet kv.2 key v) else kv).find?
      (fun kv => kv.1 == r)) with
    | some kv => kv.2
    | none => ([] : List (String × String))) =
    (match h.cells.find? (fun kv => kv.1 == r) with
      | some kv => kv.2
      | none => [])
  exact read_write_ne_aux h.cells r2 r key v hr

/-! ## Claims C3, C4, C5, C9 -/

/-- C3: contrary to the claim, a failure around the `tc-log.txt` parse is not
downgraded to a non-fatal advisory.  A missing `tc-log.txt` aborts the result
assembly of `execute` (the `open` failure is re-raised by the bare
`except: raise`, and the raw-capture `open` sits outside any `try`), and a
log line that makes the scanner raise (here `xyzguess x`, whose `value[1]`
raises `IndexError`) aborts it too instead of being warned about. -/
theorem execute_missing_log_aborts :
    execute_outputs "out" "err" "abcdef" none (some ["site fractions"]) =
        .error (.fileNotFound "tc-log.txt") ∧
      execute_outputs "out" "err" "abcdef" (some ["xyzguess x"]) (some []) =
        .error .indexError := by decide

/-- C4: contrary to the claim, the `ptguess` branch stores the line's first
two argument tokens under `P` and `T` as raw strings, with no float
conversion (the neighbouring `xyzguess` and `mode` branches do convert, and
`execute`'s docstring shows `results.P` as the float `11.0`). -/
theorem ptguess_stores_raw_tokens :
    parse_tc_log_loop [] ["THERMOCALC 3.50", "ptguess 11.0 550.0 1"] =
      .ok [("P", RVal.str "11.0"), ("T", RVal.str "550.0")] := by decide

/-- C5 counterexample: `thermodynamic_properties.add_data` on the empty token
list (count 0, different from header length + 1 = 3) raises a bare
`IndexError` — an error that names no row key and carries no counts — because
`line[0]` is evaluated while the mismatch message is being built. -/
theorem thermo_add_data_empty_indexerror :
    (thermodynamic_properties.make ["H2O", "SiO2"]).add_data [] =
      .error .indexError := by decide

/-- C5 (amended): for a nonempty token list whose count differs from header
length + 1, the thermodynamic-property table's `add_data` raises the error
carrying exactly the expected count (the header length), the actual count
(token count minus one) and the offending row key (the first token); and
`rbi.add_phase` with a wrong-length oxide list always raises the error
carrying the oxide-column count, the supplied count and the stripped phase
name. -/
theorem add_data_count_mismatch_errors
    (t : thermodynamic_properties) (p : String) (rest : List String)
    (hlen : (p :: rest).length ≠ t.header.length + 1)
    (r : rbi) (phase mode : String) (oxs : List String)
    (hox : r.oxides.length ≠ oxs.length) :
    t.add_data (p :: rest) =
        .error (.thermoCountMismatch t.header.length ((p :: rest).length - 1) p) ∧
      (r.add_phase phase mode oxs).2 =
        some (.rbiCountMismatch r.oxides.length oxs.length (pystrip phase)) := by
  constructor
  · simp only [List.length_cons] at hlen
    have hlen' : rest.length ≠ t.header.length := by omega
    simp [thermodynamic_properties.add_data, hlen']
  · simp [rbi.add_phase, hox]

/-- C5 witness: header length 5 with 4 supplied values reports expected 5,
actual 4 for phase `ph`; an `rbi` with one oxide column fed two oxide values
reports expected 1, actual 2 for phase `g`. -/
theorem add_data_count_mismatch_errors_witness :
    (thermodynamic_properties.make ["a", "b", "c", "d", "e"]).add_data
        ["ph", "1", "2", "3", "4"] =
        .error (.thermoCountMismatch 5 4 "ph") ∧
      ((rbi.make ["SiO2"]).add_phase "g" "0.1" ["1", "2"]).2 =
        some (.rbiCountMismatch 1 2 "g") :=
  add_data_count_mismatch_errors (thermodynamic_properties.make
    ["a", "b", "c", "d", "e"]) "ph" ["1", "2", "3", "4"] (by decide)
    (rbi.make ["SiO2"]) "g" "0.1" ["1", "2"] (by decide)

/-- C9: a failed `rbi.add_phase` (wrong oxide count) is not atomic on the
table: the error is raised only after the row keyed by the stripped phase
name has been inserted holding just its `mode` entry. -/
theorem add_phase_mismatch_not_atomic (t : rbi) (phase mode : String)
    (oxs : List String) (h : t.oxides.length ≠ oxs.length) :
    (t.add_phase phase mode oxs).2 =
        some (.rbiCountMismatch t.oxides.length oxs.length (pystrip phase)) ∧
      odFind? (t.add_phase phase mode oxs).1.entries (pystrip phase) =
        some [("mode", mode)] := by
  constructor
  · simp [rbi.add_phase, h]
  · simp [rbi.add_phase, h, odFind?_set_self]

/-- C9 witness: adding phase `g` with one oxide value to a two-oxide table
fails but leaves the row `g -> mode only` in the table. -/
theorem add_phase_mismatch_not_atomic_witness :
    ((rbi.make ["SiO2", "Al2O3"]).add_phase "g" "0.5" ["1.0"]).2 =
        some (.rbiCountMismatch 2 1 "g") ∧
      odFind? ((rbi.make ["SiO2", "Al2O3"]).add_phase "g" "0.5" ["1.0"]).1.entries
        "g" = some [("mode", "0.5")] :=
  add_phase_mismatch_not_atomic (rbi.make ["SiO2", "Al2O3"]) "g" "0.5" ["1.0"]
    (by decide)

/-! ## Claim C7 -/

/-- C7: for every phase-proportion table (with valid row references and an
already-stripped oxide header, as the code produces), `copy()` yields a table
denoting the same plain value — same oxide columns, row-for-row equal
contents — and an in-place write to any row object of the copy leaves the
value denoted by the original table unchanged: every row is deep-copied,
never aliased. -/
theorem rbi_copy_deep_independent (h : Heap) (t : rbiRef)
    (href : ∀ kv ∈ t.entries, kv.2 < h.next)
    (hox : t.oxides.map pystrip = t.oxides)
    (key v p : String) (r2 : Nat)
    (hfind : odFind? (rbiRef.copy h t).2.entries p = some r2) :
    (rbiRef.copy h t).2.toValue (rbiRef.copy h t).1 = t.toValue h ∧
    t.toValue (((rbiRef.copy h t).1).write r2 key v) = t.toValue h := by
  obtain ⟨m1, m2, m3, m4, m5⟩ :=
    copy_fold h t.entries h ⟨t.oxides.map pystrip, []⟩ href le_rfl
      (fun r _ => rfl) (by simp)
  have hc : rbiRef.copy h t =
      t.entries.foldl copyStep (h, ⟨t.oxides.map pystrip, []⟩) := rfl
  rw [← hc] at m1 m2 m3 m4 m5
  constructor
  · show (⟨(rbiRef.copy h t).2.oxides, (rbiRef.copy h t).2.entries.map
        fun kv => (kv.1, (rbiRef.copy h t).1.read kv.2)⟩ : rbi) = _
    have hoxe : (rbiRef.copy h t).2.oxides = t.oxides := by
      rw [m3]
      exact hox
    rw [hoxe]
    have hent : (rbiRef.copy h t).2.entries.map
        (fun kv => (kv.1, (rbiRef.copy h t).1.read kv.2)) =
        t.entries.map fun kv => (kv.1, h.read kv.2) := by
      have := m4
      simpa using this
    rw [hent]
    rfl
  · have hr2mem : (p, r2) ∈ (rbiRef.copy h t).2.entries :=
      odFind?_mem _ _ _ hfind
    have hge : h.next ≤ r2 := by
      have h5 := m5 (p, r2) hr2mem
      rcases h5.2 with hin | hge
      · simp at hin
      · exact hge
    show (⟨t.oxides, t.entries.map fun kv =>
        (kv.1, ((rbiRef.copy h t).1.write r2 key v).read kv.2)⟩ : rbi) = _
    have hent : t.entries.map
        (fun kv => (kv.1, ((rbiRef.copy h t).1.write r2 key v).read kv.2)) =
        t.entries.map fun kv => (kv.1, h.read kv.2) := by
      apply List.map_congr_left
      intro kv hkv
      have hlt : kv.2 < h.next := href kv hkv
      rw [Heap.read_write_ne _ _ _ _ _ (by omega)]
      rw [m2 kv.2 hlt]
    rw [hent]
    rfl

/-- C7 witness: copying a concrete two-row table and overwriting `SiO2` in
the copy's `g` row (its fresh row object is reference 2) leaves the original
table's denoted value intact. -/
theorem rbi_copy_deep_independent_witness :
    (rbiRef.copy c7Heap c7Tab).2.toValue (rbiRef.copy c7Heap c7Tab).1 =
        c7Tab.toValue c7Heap ∧
      c7Tab.toValue (((rbiRef.copy c7Heap c7Tab).1).write 2 "SiO2" "9.9") =
        c7Tab.toValue c7Heap :=
  rbi_copy_deep_independent c7Heap c7Tab (by decide) (by decide) "SiO2" "9.9"
    "g" 2 (by decide)

/-! ## Claim C8 -/

/-- C8 counterexample: a context whose script maps `axfile` to `None` but
whose preferences carry `calcmode` `"2"` fails `check_config` with the
calcmode error, which does not name `axfile` — refuting the claim for
arbitrary contexts. -/
theorem check_config_calcmode_shadows_axfile :
    check_config ⟨[("calcmode", .str "2"), ("scriptfile", .str "abcdef"),
        ("dataset", .none)],
      [("axfile", .scalar none), ("autoexit", .scalar (some "yes"))]⟩ =
        .error .unsupportedCalcmode ∧
      PyErr.namesAxfile .unsupportedCalcmode = false := by decide

/-- C8 (amended): for a context whose preferences pass the checks that
precede the axfile checks (`dataset` present, `calcmode` present and
converting to 1), a script lacking `axfile` or mapping it to `None` makes
`check_config` — which `execute` runs first — raise one of the two errors
naming `axfile`, and no `execute` action (in particular not the subprocess
launch) is performed. -/
theorem check_config_axfile_fatal (st : CtxState)
    (hd : odFind? st.prefs "dataset" ≠ none)
    (cv : PrefVal) (hc : odFind? st.prefs "calcmode" = some cv)
    (hcv : pyInt cv = .ok 1)
    (hax : odFind? st.script "axfile" = none ∨
      odFind? st.script "axfile" = some (.scalar none)) :
    ∃ e : PyErr, execute_actions st = ([], some e) ∧ e.namesAxfile = true ∧
      ExecAction.launchSubprocess ∉ (execute_actions st).1 := by
  obtain ⟨d, hdd⟩ := Option.ne_none_iff_exists'.mp hd
  rcases hax with hax | hax
  · have hcc : check_config st = .error .missingAxfile := by
      simp [check_config, hdd, hc, hcv, hax]
    refine ⟨.missingAxfile, ?_, rfl, ?_⟩
    · unfold execute_actions
      rw [hcc]
    · unfold execute_actions
      rw [hcc]
      simp
  · have hcc : check_config st = .error .nullAxfile := by
      simp [check_config, hdd, hc, hcv, hax]
    refine ⟨.nullAxfile, ?_, rfl, ?_⟩
    · unfold execute_actions
      rw [hcc]
    · unfold execute_actions
      rw [hcc]
      simp

/-- C8 witness: the freshly reloaded defaults (valid preferences, `axfile`
still `None`) make `check_config` fail with an axfile-naming error before
any `execute` action. -/
theorem check_config_axfile_fatal_witness :
    ∃ e : PyErr, execute_actions (reload_defaults "abcdef") = ([], some e) ∧
      e.namesAxfile = true ∧
      ExecAction.launchSubprocess ∉ (execute_actions (reload_defaults "abcdef")).1 :=
  check_config_axfile_fatal (reload_defaults "abcdef") (by decide) (.int 1)
    (by decide) (by decide) (Or.inr (by decide))

/-! ## Claim C6 -/

theorem groupFill_nil (cols : List String) :
    groupFill cols [] = cols.map fun c => (c, (none : Option String)) := by
  induction cols with
  | nil => rfl
  | cons c cs ih => simp [groupFill, ih]

/-- Folding the group-creation loop over pairwise-distinct column tokens
yields the columns in order, each mapped to `None`. -/
theorem group_create_below (cs : List String) (c : String) (x : Option String) :
    ∀ d, (∀ tok ∈ cs, tok ≠ c) →
    cs.foldl (fun d tok => odSet d tok none) ((c, x) :: d) =
      (c, x) :: cs.foldl (fun d tok => odSet d tok none) d := by
  induction cs with
  | nil => intro d _; rfl
  | cons t ts ih =>
    intro d hne
    have hne1 : ¬ c = t := fun hh =>
      (hne t (List.mem_cons_self _ _)) hh.symm
    simp only [List.foldl_cons, odSet, if_neg hne1]
    exact ih (odSet d t none) fun tok htok => hne tok (List.mem_cons_of_mem _ htok)

theorem group_create (cols : List String) (h : cols.Nodup) :
    cols.foldl (fun d tok => odSet d tok none) [] =
      cols.map fun c => (c, (none : Option String)) := by
  induction cols with
  | nil => rfl
  | cons c cs ih =>
    have hnd := List.nodup_cons.mp h
    simp only [List.foldl_cons, odSet]
    rw [group_create_below cs c none [] (fun tok htok hh => hnd.1 (hh ▸ htok))]
    rw [ih hnd.2]
    rfl

/-- Folding the zip-fill loop over pairs whose keys avoid the head leaves the
head untouched. -/
theorem group_fill_below (ps : List (String × String)) (c : String)
    (x : Option String) :
    ∀ d, (∀ q ∈ ps, q.1 ≠ c) →
    ps.foldl (fun d kv => odSet d kv.1 (some kv.2)) ((c, x) :: d) =
      (c, x) :: ps.foldl (fun d kv => odSet d kv.1 (some kv.2)) d := by
  induction ps with
  | nil => intro d _; rfl
  | cons q qs ih =>
    intro d hne
    have hne1 : ¬ c = q.1 := fun hh =>
      (hne q (List.mem_cons_self _ _)) hh.symm
    simp only [List.foldl_cons, odSet, if_neg hne1]
    exact ih (odSet d q.1 (some q.2)) fun p hp => hne p (List.mem_cons_of_mem _ hp)

/-- The even-numbered call's zip-fill over a freshly opened group of
pairwise-distinct columns produces exactly `groupFill`. -/
theorem group_fill (cols : List String) (vals : List String) (h : cols.Nodup) :
    (cols.zip vals).foldl (fun d kv => odSet d kv.1 (some kv.2))
        (cols.map fun c => (c, (none : Option String))) =
      groupFill cols vals := by
  induction cols generalizing vals with
  | nil => cases vals <;> rfl
  | cons c cs ih =>
    have hnd := List.nodup_cons.mp h
    cases vals with
    | nil =>
      simp only [List.zip_nil_right, List.foldl_nil, groupFill_nil]
    | cons v vs =>
      simp only [List.zip_cons_cons, List.foldl_cons, List.map_cons, odSet,
        if_true, eq_self_iff_true]
      rw [group_fill_below (cs.zip vs) c (some v) (cs.map fun c => (c, none))
        (fun q hq hh => hnd.1 (hh ▸ (List.of_mem_zip hq).1))]
      rw [ih vs hnd.2]
      rfl

/-- C6: from a cleared accumulator, an odd call whose line is title `t`
followed by pairwise-distinct column tokens opens group `t` with every column
`None`; the immediately following even call with value tokens `vals` fills
exactly that group by positional zip (surplus on either side discarded into
`groupFill`) and clears the pending title, so a third call with a different
title opens a new group and leaves group `t` untouched. -/
theorem site_fractions_two_line_groups (sf : site_fractions)
    (hclear : sf._data_title = none) (t : String) (cols vals : List String)
    (hnodup : cols.Nodup) (t3 : String) (cols3 : List String) (ht3 : t3 ≠ t) :
    sf.add_data (t :: cols) =
        .ok ⟨odSet sf.entries t (cols.map fun c => (c, none)), some t⟩ ∧
      (site_fractions.add_data
          ⟨odSet sf.entries t (cols.map fun c => (c, none)), some t⟩ vals) =
        .ok ⟨odSet (odSet sf.entries t (cols.map fun c => (c, none))) t
          (groupFill cols vals), none⟩ ∧
      odFind? (odSet (odSet sf.entries t (cols.map fun c => (c, none))) t
          (groupFill cols vals)) t = some (groupFill cols vals) ∧
      ∃ sf3, site_fractions.add_data
          ⟨odSet (odSet sf.entries t (cols.map fun c => (c, none))) t
            (groupFill cols vals), none⟩ (t3 :: cols3) = .ok sf3 ∧
        sf3._data_title = some t3 ∧
        odFind? sf3.entries t = some (groupFill cols vals) := by
  refine ⟨?_, ?_, odFind?_set_self _ _ _, ?_⟩
  · simp only [site_fractions.add_data, hclear]
    rw [group_create cols hnodup]
  · simp only [site_fractions.add_data, odFind?_set_self]
    have hkeys : (cols.map fun c => (c, (none : Option String))).map Prod.fst
        = cols := by
      have hcomp : (Prod.fst ∘ fun c : String => (c, (none : Option String)))
          = id := rfl
      rw [List.map_map, hcomp, List.map_id]
    rw [hkeys, group_fill cols vals hnodup]
  · refine ⟨⟨odSet (odSet (odSet sf.entries t (cols.map fun c => (c, none))) t
        (groupFill cols vals)) t3
        (cols3.foldl (fun d tok => odSet d tok none) []), some t3⟩, ?_, rfl, ?_⟩
    · simp only [site_fractions.add_data]
    · rw [odFind?_set_ne _ _ _ _ (Ne.symm ht3)]
      exact odFind?_set_self _ _ _

/-- C6 witness: the specification's concrete instance — feeding
`g xMgX xFeX` then the two values yields group `g` mapping `xMgX` to
`0.13698` and `xFeX` to `0.82757`, and a following `bi ...` line opens a new
group leaving `g` unchanged. -/
theorem site_fractions_two_line_groups_witness :
    site_fractions.init.add_data ["g", "xMgX", "xFeX"] =
        .ok ⟨odSet site_fractions.init.entries "g"
          (["xMgX", "xFeX"].map fun c => (c, none)), some "g"⟩ ∧
      (site_fractions.add_data
          ⟨odSet site_fractions.init.entries "g"
            (["xMgX", "xFeX"].map fun c => (c, none)), some "g"⟩
          ["0.13698", "0.82757"]) =
        .ok ⟨odSet (odSet site_fractions.init.entries "g"
          (["xMgX", "xFeX"].map fun c => (c, none))) "g"
          (groupFill ["xMgX", "xFeX"] ["0.13698", "0.82757"]), none⟩ ∧
      odFind? (odSet (odSet site_fractions.init.entries "g"
          (["xMgX", "xFeX"].map fun c => (c, none))) "g"
          (groupFill ["xMgX", "xFeX"] ["0.13698", "0.82757"])) "g" =
        some (groupFill ["xMgX", "xFeX"] ["0.13698", "0.82757"]) ∧
      ∃ sf3, site_fractions.add_data
          ⟨odSet (odSet site_fractions.init.entries "g"
            (["xMgX", "xFeX"].map fun c => (c, none))) "g"
            (groupFill ["xMgX", "xFeX"] ["0.13698", "0.82757"]), none⟩
          ["bi", "xMgM3"] = .ok sf3 ∧
        sf3._data_title = some "bi" ∧
        odFind? sf3.entries "g" =
          some (groupFill ["xMgX", "xFeX"] ["0.13698", "0.82757"]) :=
  site_fractions_two_line_groups site_fractions.init rfl "g"
    ["xMgX", "xFeX"] ["0.13698", "0.82757"] (by decide) "bi" ["xMgM3"]
    (by decide)

/-! ## Tokenization lemmas

The serialized lines `save_script` emits are interleavings of whitespace runs
and whitespace-free, `%`-free tokens; `Rend ts l` states that the character
list `l` renders exactly the token list `ts` in that sense, and
`tokenize_of_rend` recovers the tokens through the reload tokenizer. -/

theorem isTokStr_spec (s : String) (h : isTokStr s = true) :
    s.data ≠ [] ∧ ∀ c ∈ s.data, ¬c.isWhitespace ∧ c ≠ '%' := by
  unfold isTokStr at h
  simp at h
  obtain ⟨h1, h2⟩ := h
  refine ⟨by simpa using h1, fun c hc => ?_⟩
  obtain ⟨hw, hp⟩ := h2 c hc
  exact ⟨by simpa using hw, by simpa using hp⟩

theorem NextWs_nil : NextWs [] := Or.inl rfl

theorem NextWs_cons_ws (c : Char) (l : List Char) (h : c.isWhitespace) :
    NextWs (c :: l) := Or.inr ⟨c, l, rfl, h⟩

theorem NextWs_replicate (m : Nat) : NextWs (List.replicate m ' ') := by
  cases m with
  | zero => exact NextWs_nil
  | succ k => exact NextWs_cons_ws ' ' _ (by decide)

theorem NextWs_replicate_append (m : Nat) (l : List Char) (h : NextWs l) :
    NextWs (List.replicate m ' ' ++ l) := by
  cases m with
  | zero => simpa using h
  | succ k => exact NextWs_cons_ws ' ' _ (by decide)

theorem wordsAux_token (t : List Char) (ht : ∀ c ∈ t, ¬c.isWhitespace) :
    ∀ (acc l : List Char),
      wordsAux (t ++ l) acc = wordsAux l (t.reverse ++ acc) := by
  induction t with
  | nil => intro acc l; simp
  | cons c t' ih =>
    intro acc l
    have hc : ¬c.isWhitespace = true := ht c (List.mem_cons_self _ _)
    simp only [List.cons_append, wordsAux, if_neg hc]
    rw [List.reverse_cons, List.append_assoc]
    exact ih (fun d hd => ht d (List.mem_cons_of_mem _ hd)) (c :: acc) l

theorem words_cons_ws (c : Char) (l : List Char) (h : c.isWhitespace) :
    words (c :: l) = words l := by
  simp [words, wordsAux, h]

theorem reverse_isEmpty_false (t : List Char) (h : t ≠ []) :
    t.reverse.isEmpty = false := by
  rw [List.isEmpty_eq_false]
  simpa using h

theorem wordsAux_cons_ws (c : Char) (cs acc : List Char)
    (h : c.isWhitespace) :
    wordsAux (c :: cs) acc =
      if acc.isEmpty then wordsAux cs [] else acc.reverse :: wordsAux cs [] := by
  simp [wordsAux, h]

theorem words_token_head (t l : List Char) (htne : t ≠ [])
    (ht : ∀ c ∈ t, ¬c.isWhitespace) (hl : NextWs l) :
    words (t ++ l) = t :: words l := by
  unfold words
  rw [wordsAux_token t ht [] l, List.append_nil]
  rcases hl with rfl | ⟨c, l2, rfl, hc⟩
  · simp only [wordsAux]
    rw [if_neg (by rw [reverse_isEmpty_false t htne]; simp)]
    simp
  · rw [wordsAux_cons_ws c l2 t.reverse hc, wordsAux_cons_ws c l2 [] hc]
    rw [if_neg (by rw [reverse_isEmpty_false t htne]; simp)]
    simp

theorem Rend.words_eq {ts : List String} {l : List Char} (h : Rend ts l) :
    words l = ts.map String.data := by
  induction h with
  | nil => rfl
  | ws c ts l hc _ ih => rw [words_cons_ws c l hc, ih]
  | tok t ts l htne ht hnext _ ih =>
    rw [words_token_head t l htne (fun c hc => (ht c hc).1) hnext, ih]
    rfl

theorem Rend.no_pct {ts : List String} {l : List Char} (h : Rend ts l) :
    ∀ c ∈ l, c ≠ '%' := by
  induction h with
  | nil => intro c hc; simp at hc
  | ws c2 ts l hc2 _ ih =>
    intro c hc
    rcases List.mem_cons.mp hc with rfl | hc
    · intro hh
      rw [hh] at hc2
      exact absurd hc2 (by decide)
    · exact ih c hc
  | tok t ts l htne ht hnext _ ih =>
    intro c hc
    rcases List.mem_append.mp hc with hc | hc
    · exact (ht c hc).2
    · exact ih c hc

theorem upToPercent_eq_self (l : List Char) (h : ∀ c ∈ l, c ≠ '%') :
    upToPercent l = l := by
  induction l with
  | nil => rfl
  | cons c cs ih =>
    simp only [upToPercent, if_neg (h c (List.mem_cons_self _ _))]
    rw [ih fun d hd => h d (List.mem_cons_of_mem _ hd)]

/-- The reload tokenizer recovers exactly the tokens of a rendered line. -/
theorem tokenize_of_rend (s : String) (ts : List String)
    (h : Rend ts s.data) : tokenize s = ts := by
  unfold tokenize
  rw [upToPercent_eq_self s.data (Rend.no_pct h), Rend.words_eq h,
    List.map_map]
  have hcomp : (String.mk ∘ String.data) = id := rfl
  rw [hcomp, List.map_id]

theorem rend_tok_str (s : String) (hs : isTokStr s = true) (ts : List String)
    (l : List Char) (hl : NextWs l) (h : Rend ts l) :
    Rend (s :: ts) (s.data ++ l) := by
  obtain ⟨h1, h2⟩ := isTokStr_spec s hs
  exact Rend.tok s.data ts l h1 h2 hl h

theorem rend_spaces (n : Nat) (ts : List String) (l : List Char)
    (h : Rend ts l) : Rend ts (List.replicate n ' ' ++ l) := by
  induction n with
  | zero => simpa using h
  | succ k ih =>
    simp only [List.replicate_succ, List.cons_append]
    exact Rend.ws ' ' ts _ (by decide) ih

theorem rend_single (s : String) (hs : isTokStr s = true) :
    Rend [s] s.data := by
  have h := rend_tok_str s hs [] [] NextWs_nil Rend.nil
  rw [List.append_nil] at h
  exact h

/-- Rendering of a space-joined token list, continued by `l` (which must
start with whitespace or end the line). -/
theorem rend_joinSpace (vts : List String)
    (h : ∀ t ∈ vts, isTokStr t = true) :
    ∀ (ts : List String) (l : List Char), NextWs l → Rend ts l →
      Rend (vts ++ ts) ((joinSpace vts).data ++ l) := by
  induction vts with
  | nil => intro ts l _ hr; simpa [joinSpace] using hr
  | cons t vts ih =>
    intro ts l hl hr
    cases vts with
    | nil =>
      simp only [joinSpace]
      exact rend_tok_str t (h t (List.mem_cons_self _ _)) ts l hl hr
    | cons t2 vts2 =>
      have hjoin : joinSpace (t :: t2 :: vts2) = t ++ " " ++ joinSpace (t2 :: vts2) :=
        rfl
      rw [hjoin]
      have hdata : (t ++ " " ++ joinSpace (t2 :: vts2)).data ++ l =
          t.data ++ (' ' :: ((joinSpace (t2 :: vts2)).data ++ l)) := by
        simp
      rw [hdata]
      apply rend_tok_str t (h t (List.mem_cons_self _ _))
      · exact NextWs_cons_ws ' ' _ (by decide)
      · apply Rend.ws ' ' _ _ (by decide)
        exact ih (fun q hq => h q (List.mem_cons_of_mem _ hq)) ts l hl hr

/-- Rendering of `" ".join(str(p).ljust(just))` over tokens, continued by a
whitespace-or-end tail. -/
theorem rend_joinLjust (vts : List String) (just : Nat)
    (h : ∀ t ∈ vts, isTokStr t = true) :
    ∀ (ts : List String) (l : List Char), NextWs l → Rend ts l →
      Rend (vts ++ ts) ((joinLjust vts just).data ++ l) := by
  induction vts with
  | nil => intro ts l _ hr; simpa [joinLjust, joinSpace] using hr
  | cons t vts ih =>
    intro ts l hl hr
    cases vts with
    | nil =>
      have hdata : (joinLjust [t] just).data ++ l =
          t.data ++ (List.replicate (just - t.length) ' ' ++ l) := by
        simp [joinLjust, joinSpace, ljust]
      rw [hdata]
      apply rend_tok_str t (h t (List.mem_cons_self _ _))
      · exact NextWs_replicate_append _ l hl
      · exact rend_spaces _ ts l hr
    | cons t2 vts2 =>
      have hdata : (joinLjust (t :: t2 :: vts2) just).data ++ l =
          t.data ++ (List.replicate (just - t.length) ' ' ++
            (' ' :: ((joinLjust (t2 :: vts2) just).data ++ l))) := by
        simp [joinLjust, joinSpace, ljust]
      rw [hdata]
      apply rend_tok_str t (h t (List.mem_cons_self _ _))
      · exact NextWs_replicate_append _ _ (NextWs_cons_ws ' ' _ (by decide))
      · apply rend_spaces
        apply Rend.ws ' ' _ _ (by decide)
        exact ih (fun q hq => h q (List.mem_cons_of_mem _ hq)) ts l hl hr

theorem isTokStr_bne_empty (c : String) (hc : isTokStr c = true) :
    (c != "") = true := by
  obtain ⟨h1, _⟩ := isTokStr_spec c hc
  simp only [bne_iff_ne, ne_eq]
  intro hh
  subst hh
  exact h1 rfl

/-- Rendering of a two-space-joined cell row (the tabulate model): the tokens
are the nonempty cells. -/
theorem rend_joinTwoSpace (cells : List String)
    (h : ∀ c ∈ cells, c = "" ∨ isTokStr c = true) :
    Rend (cells.filter fun c => c != "") (joinTwoSpace cells).data := by
  induction cells with
  | nil => exact Rend.nil
  | cons c cells ih =>
    cases cells with
    | nil =>
      rcases h c (List.mem_cons_self _ _) with hc | hc
      · subst hc
        simp only [joinTwoSpace, List.filter]
        exact Rend.nil
      · simp only [joinTwoSpace, List.filter, isTokStr_bne_empty c hc]
        exact rend_single c hc
    | cons c2 cells2 =>
      have hjoin : joinTwoSpace (c :: c2 :: cells2) =
          c ++ "  " ++ joinTwoSpace (c2 :: cells2) := rfl
      have htail := ih fun q hq => h q (List.mem_cons_of_mem _ hq)
      rcases h c (List.mem_cons_self _ _) with hc | hc
      · subst hc
        have hdata : (("" : String) ++ "  " ++ joinTwoSpace (c2 :: cells2)).data =
            ' ' :: ' ' :: (joinTwoSpace (c2 :: cells2)).data := by simp
        rw [hjoin, hdata]
        have hfilter : ((("" : String) :: c2 :: cells2).filter fun c => c != "") =
            ((c2 :: cells2).filter fun c => c != "") := by
          simp [List.filter]
        rw [hfilter]
        exact Rend.ws ' ' _ _ (by decide) (Rend.ws ' ' _ _ (by decide) htail)
      · have hne : (c != "") = true := isTokStr_bne_empty c hc
        have hdata : (c ++ "  " ++ joinTwoSpace (c2 :: cells2)).data =
            c.data ++ (' ' :: ' ' :: (joinTwoSpace (c2 :: cells2)).data) := by
          simp
        rw [hjoin, hdata]
        have hfilter : ((c :: c2 :: cells2).filter fun c => c != "") =
            c :: ((c2 :: cells2).filter fun c => c != "") := by
          simp [List.filter, hne]
        rw [hfilter]
        apply rend_tok_str c hc
        · exact NextWs_cons_ws ' ' _ (by decide)
        · exact Rend.ws ' ' _ _ (by decide) (Rend.ws ' ' _ _ (by decide) htail)

/-- Tokenization of a `key value` scalar line as written by `save_script`. -/
theorem tokenize_scalar_line (k : String) (n : Nat) (v : String)
    (hk : isTokStr k = true) (ts : List String)
    (hts : Rend ts v.data) :
    tokenize (ljust k n ++ " " ++ v) = k :: ts := by
  apply tokenize_of_rend
  have hdata : (ljust k n ++ " " ++ v).data =
      k.data ++ (List.replicate (n - k.length) ' ' ++ (' ' :: v.data)) := by
    simp [ljust]
  rw [hdata]
  apply rend_tok_str k hk
  · exact NextWs_replicate_append _ _ (NextWs_cons_ws ' ' _ (by decide))
  · exact rend_spaces _ _ _ (Rend.ws ' ' _ _ (by decide) hts)

/-! ## Claim C10 -/

/-- C10: `Context.reload` resets the configuration to fixed defaults before
reading any file — preferences `calcmode=1`, `scriptfile=` the context's
random identifier, `dataset=None`; script `axfile=None`, `autoexit="yes"` —
so a context created with `scripts_dir=None` holds exactly this state, its
script contains `autoexit` with value `yes`, and `save_script` writes an
`autoexit yes` line into every serialized script file whose script holds that
entry. -/
theorem reload_defaults_autoexit (id : String) (st : Script)
    (hst : odFind? st "autoexit" = some (.scalar (some "yes"))) :
    reload_defaults id =
        ⟨[("calcmode", .int 1), ("scriptfile", .str id), ("dataset", .none)],
          [("axfile", .scalar none), ("autoexit", .scalar (some "yes"))]⟩ ∧
      odFind? (reload_defaults id).script "autoexit" =
        some (.scalar (some "yes")) ∧
      ∃ line ∈ save_script st, tokenize line = ["autoexit", "yes"] := by
  refine ⟨rfl, rfl, ?_⟩
  have hmem : ("autoexit", ScriptVal.scalar (some "yes")) ∈ st :=
    odFind?_mem _ _ _ hst
  refine ⟨ljust "autoexit" (_longest_key st + 1) ++ " " ++ optStr (some "yes"),
    ?_, ?_⟩
  · unfold save_script
    apply List.mem_flatMap.mpr
    exact ⟨("autoexit", ScriptVal.scalar (some "yes")), hmem,
      by simp [saveEntry]⟩
  · show tokenize (ljust "autoexit" (_longest_key st + 1) ++ " " ++ "yes") = _
    exact tokenize_scalar_line "autoexit" (_longest_key st + 1) "yes"
      (by decide) ["yes"] (rend_single "yes" (by decide))

/-- C10 witness: the defaults state for a concrete identifier, with the
`autoexit yes` line recovered from its own serialization. -/
theorem reload_defaults_autoexit_witness :
    reload_defaults "abcdef" =
        ⟨[("calcmode", .int 1), ("scriptfile", .str "abcdef"),
          ("dataset", .none)],
          [("axfile", .scalar none), ("autoexit", .scalar (some "yes"))]⟩ ∧
      odFind? (reload_defaults "abcdef").script "autoexit" =
        some (.scalar (some "yes")) ∧
      ∃ line ∈ save_script (reload_defaults "abcdef").script,
        tokenize line = ["autoexit", "yes"] :=
  reload_defaults_autoexit "abcdef" (reload_defaults "abcdef").script
    (by decide)

/-! ## Claim C2 -/

theorem KeyInv_congr (st st1 : ScriptState) (key : String)
    (sofar : List (Option String))
    (hfind : odFind? st1.script key = odFind? st.script key)
    (hkc : odGetD st1.keycount key 0 = odGetD st.keycount key 0)
    (hinv : KeyInv st key sofar) : KeyInv st1 key sofar := by
  obtain ⟨h1, h2⟩ := hinv
  refine ⟨by rw [hkc, h1], ?_⟩
  cases sofar with
  | nil => trivial
  | cons a t =>
    cases t with
    | nil => rw [hfind]; exact h2
    | cons b t2 => rw [hfind]; exact h2

theorem applyKeycount_shape (st : ScriptState) (k : String) (v : Option String)
    (st1 : ScriptState) (h : applyKeycount st k v = .ok st1) :
    ∃ sv n, st1 = ⟨odSet st.script k sv, odSet st.keycount k n⟩ := by
  unfold applyKeycount at h
  split at h
  · exact ⟨_, _, (Except.ok.inj h).symm⟩
  · split at h
    · split at h
      · exact ⟨_, _, (Except.ok.inj h).symm⟩
      · exact absurd h (by simp)
    · split at h
      · exact ⟨_, _, (Except.ok.inj h).symm⟩
      · exact absurd h (by simp)

/-- Processing a directive whose key differs from the observed one leaves the
observed key's invariant untouched. -/
theorem reload_step_other (st st1 : ScriptState) (k : String)
    (value : List String) (key : String) (hne : k ≠ key)
    (sofar : List (Option String)) (hstep : reload_step st k value = .ok st1)
    (hinv : KeyInv st key sofar) : KeyInv st1 key sofar := by
  by_cases hx : k = "xyzguess"
  · subst hx
    unfold reload_step at hstep
    rw [if_pos rfl] at hstep
    cases value with
    | nil => exact absurd hstep (by simp)
    | cons name vs =>
      cases hfind : odFind? st.script "xyzguess" with
      | none =>
        rw [hfind] at hstep
        simp at hstep
        refine KeyInv_congr st st1 key sofar ?_ ?_ hinv
        · rw [← hstep]
          exact odFind?_set_ne _ _ _ _ (Ne.symm hne)
        · rw [← hstep]
      | some sv =>
        cases sv with
        | xyzT m =>
          rw [hfind] at hstep
          simp at hstep
          refine KeyInv_congr st st1 key sofar ?_ ?_ hinv
          · rw [← hstep]
            exact odFind?_set_ne _ _ _ _ (Ne.symm hne)
          · rw [← hstep]
        | scalar a => rw [hfind] at hstep; simp at hstep
        | rows a => rw [hfind] at hstep; simp at hstep
        | rbiT a => rw [hfind] at hstep; simp at hstep
  · by_cases hr : k = "rbi"
    · subst hr
      unfold reload_step at hstep
      rw [if_neg hx, if_pos rfl] at hstep
      cases hfind : odFind? st.script "rbi" with
      | none =>
        rw [hfind] at hstep
        simp at hstep
        refine KeyInv_congr st st1 key sofar ?_ ?_ hinv
        · rw [← hstep]
          exact odFind?_set_ne _ _ _ _ (Ne.symm hne)
        · rw [← hstep]
      | some sv =>
        cases sv with
        | rbiT t =>
          rw [hfind] at hstep
          cases hadd : t.add_data value with
          | mk t2 e =>
            cases e with
            | none =>
              simp [hadd] at hstep
              refine KeyInv_congr st st1 key sofar ?_ ?_ hinv
              · rw [← hstep]
                exact odFind?_set_ne _ _ _ _ (Ne.symm hne)
              · rw [← hstep]
            | some e2 => simp [hadd] at hstep
        | scalar a => rw [hfind] at hstep; simp at hstep
        | rows a => rw [hfind] at hstep; simp at hstep
        | xyzT a => rw [hfind] at hstep; simp at hstep
    · unfold reload_step at hstep
      rw [if_neg hx, if_neg hr] at hstep
      have happ : ∃ v2, applyKeycount st k v2 = .ok st1 := by
        cases value with
        | nil => exact ⟨none, hstep⟩
        | cons v vs =>
          by_cases hask : joinSpace (v :: vs) = "ask"
          · rw [show (match v :: vs with
              | [] => applyKeycount st k none
              | v :: vs =>
                if joinSpace (v :: vs) = "ask" then
                  Except.error PyErr.askNotSupported
                else applyKeycount st k (some (joinSpace (v :: vs)))) =
              (if joinSpace (v :: vs) = "ask" then
                  Except.error PyErr.askNotSupported
                else applyKeycount st k (some (joinSpace (v :: vs))))
              from rfl, if_pos hask] at hstep
            exact absurd hstep (by simp)
          · rw [show (match v :: vs with
              | [] => applyKeycount st k none
              | v :: vs =>
                if joinSpace (v :: vs) = "ask" then
                  Except.error PyErr.askNotSupported
                else applyKeycount st k (some (joinSpace (v :: vs)))) =
              (if joinSpace (v :: vs) = "ask" then
                  Except.error PyErr.askNotSupported
                else applyKeycount st k (some (joinSpace (v :: vs))))
              from rfl, if_neg hask] at hstep
            exact ⟨some (joinSpace (v :: vs)), hstep⟩
      obtain ⟨v2, happ⟩ := happ
      obtain ⟨sv, n, rfl⟩ := applyKeycount_shape st k v2 st1 happ
      refine KeyInv_congr st _ key sofar ?_ ?_ hinv
      · exact odFind?_set_ne _ _ _ _ (Ne.symm hne)
      · unfold odGetD
        rw [odFind?_set_ne _ _ _ _ (Ne.symm hne)]

/-- Processing one more occurrence of the observed (non-special) key extends
the invariant by that occurrence's value. -/
theorem applyKeycount_key (st : ScriptState) (k : String) (v : Option String)
    (sofar : List (Option String)) (st1 : ScriptState)
    (h : applyKeycount st k v = .ok st1) (hinv : KeyInv st k sofar) :
    KeyInv st1 k (sofar ++ [v]) := by
  obtain ⟨hkc, hval⟩ := hinv
  unfold applyKeycount at h
  rw [hkc] at h
  cases sofar with
  | nil =>
    rw [if_pos (by simp)] at h
    have hst : st1 = ⟨odSet st.script k (.scalar v),
        odSet st.keycount k (([] : List (Option String)).length + 1)⟩ :=
      (Except.ok.inj h).symm
    subst hst
    refine ⟨?_, ?_⟩
    · unfold odGetD
      rw [odFind?_set_self]
      rfl
    · show odFind? (odSet st.script k (.scalar v)) k = some (.scalar v)
      exact odFind?_set_self _ _ _
  | cons v0 rest =>
    cases rest with
    | nil =>
      rw [if_neg (by simp), if_pos (by simp), hval] at h
      have hst : st1 = ⟨odSet st.script k (.rows ([v0] ++ [v])),
          odSet st.keycount k (([v0] : List (Option String)).length + 1)⟩ :=
        (Except.ok.inj h).symm
      subst hst
      refine ⟨?_, ?_⟩
      · unfold odGetD
        rw [odFind?_set_self]
        rfl
      · show odFind? (odSet st.script k (.rows ([v0] ++ [v]))) k =
          some (.rows ([v0] ++ [v]))
        exact odFind?_set_self _ _ _
    | cons v1 rest2 =>
      rw [if_neg (by simp only [List.length_cons]; omega),
        if_neg (by simp only [List.length_cons]; omega), hval] at h
      have hst : st1 = ⟨odSet st.script k
            (.rows ((v0 :: v1 :: rest2) ++ [v])),
          odSet st.keycount k ((v0 :: v1 :: rest2).length + 1)⟩ :=
        (Except.ok.inj h).symm
      subst hst
      refine ⟨?_, ?_⟩
      · unfold odGetD
        rw [odFind?_set_self]
        simp
      · show odFind? (odSet st.script k (.rows ((v0 :: v1 :: rest2) ++ [v]))) k
            = some (.rows ((v0 :: v1 :: rest2) ++ [v]))
        exact odFind?_set_self _ _ _

theorem reload_step_key (st st1 : ScriptState) (k : String)
    (value : List String) (sofar : List (Option String))
    (hk1 : k ≠ "xyzguess") (hk2 : k ≠ "rbi")
    (hstep : reload_step st k value = .ok st1) (hinv : KeyInv st k sofar) :
    KeyInv st1 k (sofar ++ [lineVal value]) := by
  unfold reload_step at hstep
  rw [if_neg hk1, if_neg hk2] at hstep
  cases value with
  | nil => exact applyKeycount_key st k none sofar st1 hstep hinv
  | cons v vs =>
    rw [show (match v :: vs with
        | [] => applyKeycount st k none
        | v :: vs =>
          if joinSpace (v :: vs) = "ask" then
            Except.error PyErr.askNotSupported
          else applyKeycount st k (some (joinSpace (v :: vs)))) =
        (if joinSpace (v :: vs) = "ask" then
            Except.error PyErr.askNotSupported
          else applyKeycount st k (some (joinSpace (v :: vs))))
        from rfl] at hstep
    by_cases hask : joinSpace (v :: vs) = "ask"
    · rw [if_pos hask] at hstep
      exact absurd hstep (by simp)
    · rw [if_neg hask] at hstep
      exact applyKeycount_key st k (some (joinSpace (v :: vs))) sofar st1
        hstep hinv

theorem reload_lines_key_inv (key : String) (hk1 : key ≠ "xyzguess")
    (hk2 : key ≠ "rbi") :
    ∀ (lines : List (List String)) (st st2 : ScriptState)
      (sofar : List (Option String)),
      reload_lines st lines = .ok st2 → KeyInv st key sofar →
      KeyInv st2 key (sofar ++ occVals key lines) := by
  intro lines
  induction lines with
  | nil =>
    intro st st2 sofar hok hinv
    simp only [reload_lines] at hok
    obtain rfl := Except.ok.inj hok
    simpa [occVals, effectiveLines] using hinv
  | cons line rest ih =>
    intro st st2 sofar hok hinv
    cases line with
    | nil =>
      rw [show reload_lines st ([] :: rest) = reload_lines st rest from rfl]
        at hok
      rw [show occVals key ([] :: rest) = occVals key rest from rfl]
      exact ih st st2 sofar hok hinv
    | cons k value =>
      by_cases hstar : k = "*"
      · subst hstar
        have hok2 : st2 = st := by
          simp [reload_lines] at hok
          exact hok.symm
        have hocc : occVals key (("*" :: value) :: rest) = [] := by
          simp [occVals, effectiveLines]
        rw [hocc, hok2, List.append_nil]
        exact hinv
      · have hred : reload_lines st ((k :: value) :: rest) =
            match reload_step st k value with
            | .error e => .error e
            | .ok stA => reload_lines stA rest := by
          simp [reload_lines, hstar]
        rw [hred] at hok
        cases hstep : reload_step st k value with
        | error e => rw [hstep] at hok; exact absurd hok (by simp)
        | ok stA =>
          rw [hstep] at hok
          by_cases hkk : k = key
          · subst hkk
            have hocc : occVals k ((k :: value) :: rest) =
                [lineVal value] ++ occVals k rest := by
              simp [occVals, effectiveLines, hstar, List.filterMap_cons]
            rw [hocc, ← List.append_assoc]
            exact ih stA st2 (sofar ++ [lineVal value]) hok
              (reload_step_key st stA k value sofar hk1 hk2 hstep hinv)
          · have hocc : occVals key ((k :: value) :: rest) =
                occVals key rest := by
              simp [occVals, effectiveLines, hstar, List.filterMap_cons, hkk]
            rw [hocc]
            exact ih stA st2 sofar hok
              (reload_step_other st stA k value key hkk sofar hstep hinv)

/-- C2: for every script file and every non-special directive key, after the
reload grammar succeeds the stored value is the bare scalar of the single
occurrence when the key occurs exactly once among the effective directive
lines (after comment stripping and the `*` stop), and the ordered list of all
per-occurrence values, in occurrence order, when it occurs two or more
times. -/
theorem reload_occurrence_representation (lines : List String) (key : String)
    (hk1 : key ≠ "xyzguess") (hk2 : key ≠ "rbi") (st2 : ScriptState)
    (hok : parse_script_file lines = .ok st2) :
    (∀ v, occVals key (lines.map tokenize) = [v] →
      odFind? st2.script key = some (.scalar v)) ∧
    (2 ≤ (occVals key (lines.map tokenize)).length →
      odFind? st2.script key = some (.rows (occVals key (lines.map tokenize)))) := by
  have hinv := reload_lines_key_inv key hk1 hk2 (lines.map tokenize)
    defaultScriptState st2 [] hok ⟨rfl, trivial⟩
  rw [List.nil_append] at hinv
  constructor
  · intro v hv
    rw [hv] at hinv
    exact hinv.2
  · intro hlen
    cases hocc : occVals key (lines.map tokenize) with
    | nil => rw [hocc] at hlen; simp at hlen
    | cons a t =>
      cases t with
      | nil => rw [hocc] at hlen; simp at hlen
      | cons b t2 =>
        rw [hocc] at hinv
        exact hinv.2

/-- C2 witness: a key occurring twice is stored as the two-element ordered
row list of its per-occurrence values. -/
theorem reload_occurrence_representation_witness :
    odFind? (ScriptState.mk
        [("axfile", .scalar none), ("autoexit", .scalar (some "yes")),
          ("dogmin", .rows [some "yes 1", some "no"])]
        [("dogmin", 2)]).script "dogmin" =
      some (.rows [some "yes 1", some "no"]) :=
  (reload_occurrence_representation ["dogmin yes 1", "dogmin no"] "dogmin"
    (by decide) (by decide)
    (ScriptState.mk
      [("axfile", .scalar none), ("autoexit", .scalar (some "yes")),
        ("dogmin", .rows [some "yes 1", some "no"])]
      [("dogmin", 2)]) (by decide)).2 (by decide)

/-! ## Claim C1 -/

theorem rend_of_scalarOK (v : String) (h : scalarOK v) :
    Rend (pysplit v) v.data := by
  obtain ⟨_, h2, h3, _⟩ := h
  have hr := rend_joinSpace (pysplit v) h2 [] [] NextWs_nil Rend.nil
  rw [List.append_nil, List.append_nil, h3] at hr
  exact hr

/-- Tokenization of a plain `key value` line (row-list items). -/
theorem tokenize_kv_line (k v : String) (hk : isTokStr k = true)
    (ts : List String) (hts : Rend ts v.data) :
    tokenize (k ++ " " ++ v) = k :: ts := by
  apply tokenize_of_rend
  have hdata : (k ++ " " ++ v).data = k.data ++ (' ' :: v.data) := by simp
  rw [hdata]
  exact rend_tok_str k hk _ _ (NextWs_cons_ws ' ' _ (by decide))
    (Rend.ws ' ' _ _ (by decide) hts)

/-- Tokenization of an `xyzguess name values...` line. -/
theorem tokenize_xyz_line (k name : String) (vals : List String)
    (hk : isTokStr k = true) (hname : isTokStr name = true)
    (hvals : ∀ t ∈ vals, isTokStr t = true) :
    tokenize (k ++ " " ++ name ++ " " ++ joinLjust vals 10) =
      k :: name :: vals := by
  apply tokenize_of_rend
  have hdata : (k ++ " " ++ name ++ " " ++ joinLjust vals 10).data =
      k.data ++ (' ' :: (name.data ++ (' ' :: (joinLjust vals 10).data))) := by
    simp
  rw [hdata]
  apply rend_tok_str k hk _ _ (NextWs_cons_ws ' ' _ (by decide))
  apply Rend.ws ' ' _ _ (by decide)
  apply rend_tok_str name hname _ _ (NextWs_cons_ws ' ' _ (by decide))
  apply Rend.ws ' ' _ _ (by decide)
  have hr := rend_joinLjust vals 10 hvals [] [] NextWs_nil Rend.nil
  rw [List.append_nil, List.append_nil] at hr
  exact hr

/-- Tokenization of one tabulate-rendered cell row. -/
theorem tokenize_cells (cells : List String)
    (h : ∀ c ∈ cells, c = "" ∨ isTokStr c = true) :
    tokenize (joinTwoSpace cells) = cells.filter fun c => c != "" :=
  tokenize_of_rend _ _ (rend_joinTwoSpace cells h)

theorem filter_tokens (l : List String) (h : ∀ c ∈ l, isTokStr c = true) :
    (l.filter fun c => c != "") = l := by
  induction l with
  | nil => rfl
  | cons c rest ih =>
    rw [List.filter_cons]
    rw [if_pos (isTokStr_bne_empty c (h c (List.mem_cons_self _ _)))]
    rw [ih fun q hq => h q (List.mem_cons_of_mem _ hq)]

theorem dropWhile_ws_eq_self (l : List Char) (h : ∀ c ∈ l, ¬c.isWhitespace) :
    l.dropWhile Char.isWhitespace = l := by
  cases l with
  | nil => rfl
  | cons c rest =>
    exact List.dropWhile_cons_of_neg (by simpa using h c (List.mem_cons_self _ _))

/-- Stripping is the identity on whitespace-free tokens. -/
theorem pystrip_tok (s : String) (h : isTokStr s = true) : pystrip s = s := by
  obtain ⟨_, h2⟩ := isTokStr_spec s h
  unfold pystrip
  rw [dropWhile_ws_eq_self s.data fun c hc => (h2 c hc).1]
  rw [dropWhile_ws_eq_self s.data.reverse fun c hc =>
    (h2 c (List.mem_reverse.mp hc)).1]
  rw [List.reverse_reverse]

/-- The serialized block of a well-formed entry tokenizes to its token
lines. -/
theorem saveEntry_tokens (longest : Nat) (kv : String × ScriptVal)
    (h : entryOK kv) :
    (saveEntry longest kv.1 kv.2).map tokenize = entryTokens kv := by
  obtain ⟨k, v⟩ := kv
  cases v with
  | scalar o =>
    cases o with
    | none => exact absurd h (by simp [entryOK])
    | some v =>
      obtain ⟨hk, _, _, _, hv⟩ := h
      simp only [saveEntry, entryTokens, List.map_cons, List.map_nil]
      rw [show optStr (some v) = v from rfl]
      rw [tokenize_scalar_line k (longest + 1) v hk (pysplit v)
        (rend_of_scalarOK v hv)]
  | rows items =>
    obtain ⟨hk, _, _, _, _, hitems⟩ := h
    simp only [saveEntry, entryTokens, List.map_map]
    apply List.map_congr_left
    intro it hit
    have hok := hitems it hit
    cases it with
    | none => exact absurd hok (by simp [rowItemOK])
    | some v =>
      show tokenize (k ++ " " ++ optStr (some v)) = k :: pysplit (optStr (some v))
      rw [show optStr (some v) = v from rfl]
      exact tokenize_kv_line k v hk (pysplit v) (rend_of_scalarOK v hok)
  | xyzT m =>
    obtain ⟨hkey, _, _, hm⟩ := h
    simp only [saveEntry, entryTokens, List.map_map]
    apply List.map_congr_left
    intro e he
    obtain ⟨hname, hvals⟩ := hm e he
    show tokenize (k ++ " " ++ e.1 ++ " " ++ joinLjust e.2 10) = k :: e.1 :: e.2
    have hknorm : k = "xyzguess" := hkey
    have hk : isTokStr k = true := by rw [hknorm]; decide
    exact tokenize_xyz_line k e.1 e.2 hk hname hvals
  | rbiT t =>
    obtain ⟨hkey, hox, _, _, _, hrows⟩ := h
    simp only [saveEntry, entryTokens, rbi.str_lines, rbi._generate_table_rows,
      List.map_cons, List.map_map]
    have hhead : tokenize (joinTwoSpace ("rbi" :: (["", ""] ++ t.oxides))) =
        "rbi" :: t.oxides := by
      rw [show ("rbi" :: (["", ""] ++ t.oxides)) =
          ("rbi" :: "" :: "" :: t.oxides) from rfl]
      rw [tokenize_cells ("rbi" :: "" :: "" :: t.oxides) ?hcells]
      case hcells =>
        intro c hc
        rcases List.mem_cons.mp hc with rfl | hc
        · exact Or.inr (by decide)
        rcases List.mem_cons.mp hc with rfl | hc
        · exact Or.inl rfl
        rcases List.mem_cons.mp hc with rfl | hc
        · exact Or.inl rfl
        · exact Or.inr (hox c hc)
      rw [show (("rbi" :: "" :: "" :: t.oxides).filter fun c => c != "") =
          "rbi" :: (t.oxides.filter fun c => c != "") from by
        simp [List.filter_cons]]
      rw [filter_tokens t.oxides hox]
    rw [hhead]
    congr 1
    apply List.map_congr_left
    intro e he
    obtain ⟨hphase, hrow⟩ := hrows e he
    show tokenize (joinTwoSpace ("rbi" :: e.1 :: e.2.map Prod.snd)) =
      "rbi" :: e.1 :: e.2.map Prod.snd
    have hcells : ∀ c ∈ ("rbi" :: e.1 :: e.2.map Prod.snd),
        isTokStr c = true := by
      intro c hc
      rcases List.mem_cons.mp hc with rfl | hc
      · decide
      rcases List.mem_cons.mp hc with rfl | hc
      · exact hphase
      · obtain ⟨q, hq, rfl⟩ := List.mem_map.mp hc
        unfold rbiRowOK at hrow
        split at hrow
        · next m rest heq =>
          rw [heq] at hq
          rcases List.mem_cons.mp hq with rfl | hq
          · exact hrow.1
          · exact hrow.2.2 q hq
        · exact absurd hrow (by simp)
    rw [tokenize_cells _ (fun c hc => Or.inr (hcells c hc))]
    exact filter_tokens _ hcells

theorem odSet_append_self {α : Type} (l : List (String × α)) (k : String)
    (v v' : α) (h : k ∉ l.map Prod.fst) :
    odSet (l ++ [(k, v)]) k v' = l ++ [(k, v')] := by
  induction l with
  | nil => simp [odSet]
  | cons kv rest ih =>
    obtain ⟨h1, h2⟩ := not_mem_map_fst_cons kv rest k h
    simp [odSet, h1, ih h2]

theorem odFind?_append_self {α : Type} (l : List (String × α)) (k : String)
    (v : α) (h : k ∉ l.map Prod.fst) :
    odFind? (l ++ [(k, v)]) k = some v := by
  rw [odFind?_append_right l _ k h]
  simp [odFind?]

theorem fold_odSet_pairs (ps : List (String × String)) :
    ∀ acc : List (String × String), (ps.map Prod.fst).Nodup →
      (∀ q ∈ ps, q.1 ∉ acc.map Prod.fst) →
      ps.foldl (fun d kv => odSet d kv.1 kv.2) acc = acc ++ ps := by
  induction ps with
  | nil => intro acc _ _; simp
  | cons q ps ih =>
    intro acc hnd hfresh
    rw [List.map_cons] at hnd
    have hnd' := List.nodup_cons.mp hnd
    simp only [List.foldl_cons]
    rw [odSet_fresh acc q.1 q.2 (hfresh q (List.mem_cons_self _ _))]
    rw [ih (acc ++ [(q.1, q.2)]) hnd'.2 ?_]
    · simp
    · intro p hp
      rw [List.map_append]
      intro hmem
      rcases List.mem_append.mp hmem with hmem | hmem
      · exact hfresh p (List.mem_cons_of_mem _ hp) hmem
      · simp at hmem
        exact hnd'.1 (hmem ▸ List.mem_map_of_mem Prod.fst hp)

/-- Sequential composition of the reload loop over a prefix without `*`
sentinels. -/
theorem reload_append (l1 l2 : List (List String))
    (h : ∀ line ∈ l1, ∀ k vs, line = k :: vs → k ≠ "*") :
    ∀ st, reload_lines st (l1 ++ l2) =
      match reload_lines st l1 with
      | .error e => .error e
      | .ok st1 => reload_lines st1 l2 := by
  induction l1 with
  | nil => intro st; rfl
  | cons line rest ih =>
    intro st
    cases line with
    | nil =>
      show reload_lines st (rest ++ l2) = _
      rw [ih (fun l hl k vs he => h l (List.mem_cons_of_mem _ hl) k vs he) st]
      rw [show reload_lines st ([] :: rest) = reload_lines st rest from by
        simp only [reload_lines]]
    | cons k vs =>
      have hk : k ≠ "*" := h _ (List.mem_cons_self _ _) k vs rfl
      simp only [List.cons_append, reload_lines]
      rw [if_neg hk, if_neg hk]
      cases h2 : reload_step st k vs with
      | error e => rfl
      | ok st2 =>
        exact ih (fun l hl k2 vs2 he => h l (List.mem_cons_of_mem _ hl) k2 vs2 he) st2

/-- One non-special scalar directive line, over a key whose occurrence count
is still fresh. -/
theorem reload_scalar_step (st : ScriptState) (k v : String)
    (hx : k ≠ "xyzguess") (hr : k ≠ "rbi") (hv : scalarOK v)
    (hkc : odFind? st.keycount k = none) :
    reload_step st k (pysplit v) =
      .ok ⟨odSet st.script k (.scalar (some v)), odSet st.keycount k 1⟩ := by
  obtain ⟨h1, h2, h3, h4⟩ := hv
  obtain ⟨v0, vs, hvv⟩ : ∃ v0 vs, pysplit v = v0 :: vs := by
    cases hpv : pysplit v with
    | nil => exact absurd hpv h1
    | cons a b => exact ⟨a, b, rfl⟩
  have hjoin : joinSpace (v0 :: vs) = v := by rw [← hvv]; exact h3
  rw [hvv]
  unfold reload_step
  rw [if_neg hx, if_neg hr]
  rw [show (match v0 :: vs with
      | [] => applyKeycount st k none
      | w :: ws =>
        if joinSpace (w :: ws) = "ask" then Except.error PyErr.askNotSupported
        else applyKeycount st k (some (joinSpace (w :: ws)))) =
      (if joinSpace (v0 :: vs) = "ask" then Except.error PyErr.askNotSupported
        else applyKeycount st k (some (joinSpace (v0 :: vs)))) from rfl]
  rw [hjoin, if_neg h4]
  unfold applyKeycount odGetD
  rw [hkc]
  rw [if_pos (by simp)]
  rfl

/-- A whole one-line scalar block over a fresh key appends it. -/
theorem reload_scalar_block (st : ScriptState) (k v : String)
    (hstar : k ≠ "*") (hx : k ≠ "xyzguess") (hr : k ≠ "rbi")
    (hv : scalarOK v) (hfresh : k ∉ st.script.map Prod.fst)
    (hkc : odFind? st.keycount k = none) :
    reload_lines st [k :: pysplit v] =
      .ok ⟨st.script ++ [(k, .scalar (some v))], odSet st.keycount k 1⟩ := by
  simp only [reload_lines]
  rw [if_neg hstar, reload_scalar_step st k v hx hr hv hkc]
  simp only [reload_lines]
  rw [odSet_fresh st.script k _ hfresh]

/-- Appending further occurrences of an already-demoted key extends its row
list in order. -/
theorem reload_rows_tail (k : String) (hstar : k ≠ "*") (hx : k ≠ "xyzguess")
    (hr : k ≠ "rbi") (base : Script) (hbase : k ∉ base.map Prod.fst)
    (items : List (Option String)) :
    ∀ (acc : List (Option String)) (kc : List (String × Nat)),
      (∀ it ∈ items, rowItemOK it) →
      odGetD kc k 0 = acc.length →
      2 ≤ acc.length →
      ∃ kc2, reload_lines ⟨base ++ [(k, .rows acc)], kc⟩
          (items.map fun it => k :: pysplit (optStr it)) =
          .ok ⟨base ++ [(k, .rows (acc ++ items))], kc2⟩ ∧
        ∀ x, x ≠ k → odFind? kc2 x = odFind? kc x := by
  induction items with
  | nil =>
    intro acc kc _ _ _
    exact ⟨kc, by simp [reload_lines], fun x _ => rfl⟩
  | cons it items ih =>
    intro acc kc hitems hkc hlen
    have hok := hitems it (List.mem_cons_self _ _)
    cases it with
    | none => exact absurd hok (by simp [rowItemOK])
    | some v =>
      obtain ⟨h1, h2, h3, h4⟩ := hok
      obtain ⟨v0, vs, hvv⟩ : ∃ v0 vs, pysplit v = v0 :: vs := by
        cases hpv : pysplit v with
        | nil => exact absurd hpv h1
        | cons a b => exact ⟨a, b, rfl⟩
      have hjoin : joinSpace (v0 :: vs) = v := by rw [← hvv]; exact h3
      have hstep : reload_step ⟨base ++ [(k, ScriptVal.rows acc)], kc⟩ k
          (pysplit (optStr (some v))) =
          .ok ⟨base ++ [(k, .rows (acc ++ [some v]))],
            odSet kc k (acc.length + 1)⟩ := by
        rw [show optStr (some v) = v from rfl, hvv]
        unfold reload_step
        rw [if_neg hx, if_neg hr]
        rw [show (match v0 :: vs with
            | [] => applyKeycount ⟨base ++ [(k, ScriptVal.rows acc)], kc⟩ k none
            | w :: ws =>
              if joinSpace (w :: ws) = "ask" then
                Except.error PyErr.askNotSupported
              else applyKeycount ⟨base ++ [(k, ScriptVal.rows acc)], kc⟩ k
                (some (joinSpace (w :: ws)))) =
            (if joinSpace (v0 :: vs) = "ask" then
                Except.error PyErr.askNotSupported
              else applyKeycount ⟨base ++ [(k, ScriptVal.rows acc)], kc⟩ k
                (some (joinSpace (v0 :: vs)))) from rfl]
        rw [hjoin, if_neg h4]
        unfold applyKeycount
        rw [show odGetD kc k 0 = acc.length from hkc]
        rw [if_neg (by omega), if_neg (by omega)]
        have hfind : odFind? (base ++ [(k, ScriptVal.rows acc)]) k
            = some (.rows acc) := odFind?_append_self base k _ hbase
        have hset : odSet (base ++ [(k, ScriptVal.rows acc)]) k
              (ScriptVal.rows (acc ++ [some v]))
            = base ++ [(k, .rows (acc ++ [some v]))] :=
          odSet_append_self base k _ _ hbase
        simp only [hfind, hset]
      rw [List.map_cons]
      rw [show reload_lines ⟨base ++ [(k, ScriptVal.rows acc)], kc⟩
          ((k :: pysplit (optStr (some v))) ::
            (items.map fun it => k :: pysplit (optStr it))) =
          (if k = "*" then Except.ok (⟨base ++ [(k, ScriptVal.rows acc)], kc⟩ : ScriptState)
          else match reload_step ⟨base ++ [(k, ScriptVal.rows acc)], kc⟩ k
              (pysplit (optStr (some v))) with
            | .error e => .error e
            | .ok st2 => reload_lines st2
                (items.map fun it => k :: pysplit (optStr it))) from by
        simp only [reload_lines]]
      rw [if_neg hstar, hstep]
      obtain ⟨kc2, hrun, hpres⟩ := ih (acc ++ [some v]) (odSet kc k (acc.length + 1))
        (fun q hq => hitems q (List.mem_cons_of_mem _ hq))
        (by
          unfold odGetD
          rw [odFind?_set_self]
          simp)
        (by simp; omega)
      refine ⟨kc2, ?_, ?_⟩
      · rw [show (match Except.ok (⟨base ++ [(k, ScriptVal.rows (acc ++ [some v]))],
            odSet kc k (acc.length + 1)⟩ : ScriptState) with
            | Except.error e => Except.error e
            | Except.ok st2 => reload_lines st2
                (items.map fun it => k :: pysplit (optStr it))) =
            reload_lines (⟨base ++ [(k, ScriptVal.rows (acc ++ [some v]))],
              odSet kc k (acc.length + 1)⟩ : ScriptState)
              (items.map fun it => k :: pysplit (optStr it)) from rfl]
        rw [hrun]
        rw [List.append_assoc]
        rfl
      · intro x hx2
        rw [hpres x hx2]
        exact odFind?_set_ne _ _ _ _ hx2

/-- A serialized row-list block over a fresh key recreates the row list. -/
theorem reload_rows_block (k : String) (hstar : k ≠ "*") (hx : k ≠ "xyzguess")
    (hr : k ≠ "rbi") (items : List (Option String)) (hlen : 2 ≤ items.length)
    (hitems : ∀ it ∈ items, rowItemOK it) (st : ScriptState)
    (hfresh : k ∉ st.script.map Prod.fst)
    (hkc : odFind? st.keycount k = none) :
    ∃ kc2, reload_lines st (items.map fun it => k :: pysplit (optStr it)) =
        .ok ⟨st.script ++ [(k, .rows items)], kc2⟩ ∧
      ∀ x, x ≠ k → odFind? kc2 x = odFind? st.keycount x := by
  match items, hlen with
  | i1 :: i2 :: rest, _ =>
  have hok1 := hitems i1 (List.mem_cons_self _ _)
  have hok2 := hitems i2 (List.mem_cons_of_mem _ (List.mem_cons_self _ _))
  cases i1 with
  | none => exact absurd hok1 (by simp [rowItemOK])
  | some v1 =>
  cases i2 with
  | none => exact absurd hok2 (by simp [rowItemOK])
  | some v2 =>
  obtain ⟨h21, h22, h23, h24⟩ := hok2
  obtain ⟨w0, ws, hww⟩ : ∃ w0 ws, pysplit v2 = w0 :: ws := by
    cases hpv : pysplit v2 with
    | nil => exact absurd hpv h21
    | cons a b => exact ⟨a, b, rfl⟩
  have hjoin2 : joinSpace (w0 :: ws) = v2 := by rw [← hww]; exact h23
  -- first line: scalar
  have hstep1 : reload_step st k (pysplit (optStr (some v1))) =
      .ok ⟨odSet st.script k (.scalar (some v1)), odSet st.keycount k 1⟩ :=
    reload_scalar_step st k v1 hx hr hok1 hkc
  have hscript1 : odSet st.script k (ScriptVal.scalar (some v1)) =
      st.script ++ [(k, .scalar (some v1))] := odSet_fresh _ _ _ hfresh
  -- second line: demotion
  have hstep2 : reload_step ⟨st.script ++ [(k, .scalar (some v1))],
      odSet st.keycount k 1⟩ k (pysplit (optStr (some v2))) =
      .ok ⟨st.script ++ [(k, .rows [some v1, some v2])],
        odSet (odSet st.keycount k 1) k 2⟩ := by
    rw [show optStr (some v2) = v2 from rfl, hww]
    unfold reload_step
    rw [if_neg hx, if_neg hr]
    rw [show (match w0 :: ws with
        | [] => applyKeycount ⟨st.script ++ [(k, ScriptVal.scalar (some v1))],
            odSet st.keycount k 1⟩ k none
        | w :: ws2 =>
          if joinSpace (w :: ws2) = "ask" then
            Except.error PyErr.askNotSupported
          else applyKeycount ⟨st.script ++ [(k, ScriptVal.scalar (some v1))],
            odSet st.keycount k 1⟩ k (some (joinSpace (w :: ws2)))) =
        (if joinSpace (w0 :: ws) = "ask" then
            Except.error PyErr.askNotSupported
          else applyKeycount ⟨st.script ++ [(k, ScriptVal.scalar (some v1))],
            odSet st.keycount k 1⟩ k (some (joinSpace (w0 :: ws)))) from rfl]
    rw [hjoin2, if_neg h24]
    unfold applyKeycount
    rw [show odGetD (ScriptState.mk (st.script ++ [(k, ScriptVal.scalar (some v1))])
        (odSet st.keycount k 1)).keycount k 0 = 1 from by
      unfold odGetD
      rw [odFind?_set_self]
      rfl]
    rw [if_neg (by omega), if_pos rfl]
    have hfind : odFind? (st.script ++ [(k, ScriptVal.scalar (some v1))]) k
        = some (.scalar (some v1)) := odFind?_append_self st.script k _ hfresh
    have hset : odSet (st.script ++ [(k, ScriptVal.scalar (some v1))]) k
          (ScriptVal.rows ([some v1] ++ [some v2]))
        = st.script ++ [(k, .rows ([some v1] ++ [some v2]))] :=
      odSet_append_self st.script k _ _ hfresh
    simp only [hfind, hset]
    rfl
  -- run the three stages
  rw [List.map_cons, List.map_cons]
  rw [show reload_lines st ((k :: pysplit (optStr (some v1))) ::
      (k :: pysplit (optStr (some v2))) ::
        (rest.map fun it => k :: pysplit (optStr it))) =
      (if k = "*" then Except.ok st
      else match reload_step st k (pysplit (optStr (some v1))) with
        | .error e => .error e
        | .ok st2 => reload_lines st2 ((k :: pysplit (optStr (some v2))) ::
            (rest.map fun it => k :: pysplit (optStr it)))) from by
    simp only [reload_lines]]
  rw [if_neg hstar, hstep1, hscript1]
  rw [show (match Except.ok (⟨st.script ++ [(k, ScriptVal.scalar (some v1))],
        odSet st.keycount k 1⟩ : ScriptState) with
      | Except.error e => Except.error e
      | Except.ok st2 => reload_lines st2 ((k :: pysplit (optStr (some v2))) ::
          (rest.map fun it => k :: pysplit (optStr it)))) =
      reload_lines (⟨st.script ++ [(k, ScriptVal.scalar (some v1))],
        odSet st.keycount k 1⟩ : ScriptState)
        ((k :: pysplit (optStr (some v2))) ::
          (rest.map fun it => k :: pysplit (optStr it))) from rfl]
  rw [show reload_lines (⟨st.script ++ [(k, ScriptVal.scalar (some v1))],
      odSet st.keycount k 1⟩ : ScriptState)
      ((k :: pysplit (optStr (some v2))) ::
        (rest.map fun it => k :: pysplit (optStr it))) =
      (if k = "*" then Except.ok (⟨st.script ++ [(k, ScriptVal.scalar (some v1))],
        odSet st.keycount k 1⟩ : ScriptState)
      else match reload_step (⟨st.script ++ [(k, ScriptVal.scalar (some v1))],
          odSet st.keycount k 1⟩ : ScriptState) k (pysplit (optStr (some v2))) with
        | .error e => .error e
        | .ok st2 => reload_lines st2
            (rest.map fun it => k :: pysplit (optStr it))) from by
    simp only [reload_lines]]
  rw [if_neg hstar, hstep2]
  obtain ⟨kc2, hrun, hpres⟩ := reload_rows_tail k hstar hx hr st.script hfresh
    rest [some v1, some v2] (odSet (odSet st.keycount k 1) k 2)
    (fun q hq => hitems q (List.mem_cons_of_mem _ (List.mem_cons_of_mem _ hq)))
    (by
      unfold odGetD
      rw [odFind?_set_self]
      rfl)
    (by simp)
  refine ⟨kc2, ?_, ?_⟩
  · rw [show (match Except.ok (⟨st.script ++ [(k, ScriptVal.rows [some v1, some v2])],
        odSet (odSet st.keycount k 1) k 2⟩ : ScriptState) with
      | Except.error e => Except.error e
      | Except.ok st2 => reload_lines st2
          (rest.map fun it => k :: pysplit (optStr it))) =
      reload_lines (⟨st.script ++ [(k, ScriptVal.rows [some v1, some v2])],
        odSet (odSet st.keycount k 1) k 2⟩ : ScriptState)
        (rest.map fun it => k :: pysplit (optStr it)) from rfl]
    rw [hrun]
    rfl
  · intro x hx2
    rw [hpres x hx2, odFind?_set_ne _ _ _ _ hx2, odFind?_set_ne _ _ _ _ hx2]

theorem zip_fst_snd {α β : Type} (l : List (α × β)) :
    (l.map Prod.fst).zip (l.map Prod.snd) = l := by
  induction l with
  | nil => rfl
  | cons q rest ih => simp [ih]

/-- Later `xyzguess` lines extend the nested composition table in order. -/
theorem reload_xyz_tail (base : Script)
    (hbase : "xyzguess" ∉ base.map Prod.fst)
    (entries : List (String × List String)) :
    ∀ (acc : List (String × List String)) (kc : List (String × Nat)),
      (∀ q ∈ entries, q.1 ∉ acc.map Prod.fst) →
      (entries.map Prod.fst).Nodup →
      reload_lines ⟨base ++ [("xyzguess", .xyzT acc)], kc⟩
        (entries.map fun e => "xyzguess" :: e.1 :: e.2) =
        .ok ⟨base ++ [("xyzguess", .xyzT (acc ++ entries))], kc⟩ := by
  induction entries with
  | nil => intro acc kc _ _; simp [reload_lines]
  | cons e entries ih =>
    intro acc kc hfreshn hnd
    rw [List.map_cons] at hnd ⊢
    have hnd' := List.nodup_cons.mp hnd
    have hstep : reload_step ⟨base ++ [("xyzguess", ScriptVal.xyzT acc)], kc⟩
        "xyzguess" (e.1 :: e.2) =
        .ok ⟨base ++ [("xyzguess", .xyzT (acc ++ [e]))], kc⟩ := by
      unfold reload_step
      rw [if_pos rfl]
      have hfind : odFind? (base ++ [("xyzguess", ScriptVal.xyzT acc)])
          "xyzguess" = some (.xyzT acc) := odFind?_append_self base _ _ hbase
      have haccset : odSet acc e.1 e.2 = acc ++ [e] := by
        rw [odSet_fresh acc e.1 e.2 (hfreshn e (List.mem_cons_self _ _))]
      have hset : odSet (base ++ [("xyzguess", ScriptVal.xyzT acc)]) "xyzguess"
          (ScriptVal.xyzT (odSet acc e.1 e.2)) =
          base ++ [("xyzguess", .xyzT (acc ++ [e]))] := by
        rw [haccset]
        exact odSet_append_self base _ _ _ hbase
      simp only [hfind, hset]
    rw [show reload_lines ⟨base ++ [("xyzguess", ScriptVal.xyzT acc)], kc⟩
        (("xyzguess" :: e.1 :: e.2) ::
          (entries.map fun q => "xyzguess" :: q.1 :: q.2)) =
        (if ("xyzguess" : String) = "*" then
          Except.ok (⟨base ++ [("xyzguess", ScriptVal.xyzT acc)], kc⟩ : ScriptState)
        else match reload_step ⟨base ++ [("xyzguess", ScriptVal.xyzT acc)], kc⟩
            "xyzguess" (e.1 :: e.2) with
          | .error er => .error er
          | .ok st2 => reload_lines st2
              (entries.map fun q => "xyzguess" :: q.1 :: q.2)) from by
      simp only [reload_lines]]
    rw [if_neg (by decide), hstep]
    rw [show (match Except.ok (⟨base ++ [("xyzguess", ScriptVal.xyzT (acc ++ [e]))],
          kc⟩ : ScriptState) with
        | Except.error er => Except.error er
        | Except.ok st2 => reload_lines st2
            (entries.map fun q => "xyzguess" :: q.1 :: q.2)) =
        reload_lines (⟨base ++ [("xyzguess", ScriptVal.xyzT (acc ++ [e]))],
          kc⟩ : ScriptState)
          (entries.map fun q => "xyzguess" :: q.1 :: q.2) from rfl]
    rw [ih (acc ++ [e]) kc ?_ hnd'.2]
    · rw [List.append_assoc]
      rfl
    · intro q hq
      rw [List.map_append]
      intro hmem
      rcases List.mem_append.mp hmem with hmem | hmem
      · exact hfreshn q (List.mem_cons_of_mem _ hq) hmem
      · simp at hmem
        exact hnd'.1 (hmem ▸ List.mem_map_of_mem Prod.fst hq)

/-- A serialized `xyzguess` block over a script lacking the key recreates the
nested table; the occurrence counter is untouched. -/
theorem reload_xyz_block (st : ScriptState)
    (hfresh : "xyzguess" ∉ st.script.map Prod.fst)
    (m : List (String × List String)) (hm : m ≠ [])
    (hnd : (m.map Prod.fst).Nodup) :
    reload_lines st (m.map fun e => "xyzguess" :: e.1 :: e.2) =
      .ok ⟨st.script ++ [("xyzguess", .xyzT m)], st.keycount⟩ := by
  match m, hm with
  | e :: entries, _ =>
  rw [List.map_cons] at hnd ⊢
  have hnd' := List.nodup_cons.mp hnd
  have hstep : reload_step st "xyzguess" (e.1 :: e.2) =
      .ok ⟨st.script ++ [("xyzguess", .xyzT [e])], st.keycount⟩ := by
    unfold reload_step
    rw [if_pos rfl]
    have hfind : odFind? st.script "xyzguess" = none :=
      odFind?_not_mem st.script _ hfresh
    have hset : odSet st.script "xyzguess" (ScriptVal.xyzT (odSet [] e.1 e.2)) =
        st.script ++ [("xyzguess", .xyzT [e])] := by
      rw [show odSet ([] : List (String × List String)) e.1 e.2 = [e] from rfl]
      exact odSet_fresh st.script _ _ hfresh
    simp only [hfind, hset]
  rw [show reload_lines st (("xyzguess" :: e.1 :: e.2) ::
      (entries.map fun q => "xyzguess" :: q.1 :: q.2)) =
      (if ("xyzguess" : String) = "*" then Except.ok st
      else match reload_step st "xyzguess" (e.1 :: e.2) with
        | .error er => .error er
        | .ok st2 => reload_lines st2
            (entries.map fun q => "xyzguess" :: q.1 :: q.2)) from by
    simp only [reload_lines]]
  rw [if_neg (by decide), hstep]
  rw [show (match Except.ok (⟨st.script ++ [("xyzguess", ScriptVal.xyzT [e])],
        st.keycount⟩ : ScriptState) with
      | Except.error er => Except.error er
      | Except.ok st2 => reload_lines st2
          (entries.map fun q => "xyzguess" :: q.1 :: q.2)) =
      reload_lines (⟨st.script ++ [("xyzguess", ScriptVal.xyzT [e])],
        st.keycount⟩ : ScriptState)
        (entries.map fun q => "xyzguess" :: q.1 :: q.2) from rfl]
  rw [reload_xyz_tail st.script hfresh entries [e] st.keycount ?_ hnd'.2]
  · rfl
  · intro q hq
    simp only [List.map_cons, List.map_nil, List.mem_singleton]
    intro hmem
    exact hnd'.1 (hmem ▸ List.mem_map_of_mem Prod.fst hq)

/-- Later `rbi` lines add one phase row each to the nested table in order. -/
theorem reload_rbi_tail (base : Script) (hbase : "rbi" ∉ base.map Prod.fst)
    (oxides : List String) (hoxnd : oxides.Nodup) (hmode : "mode" ∉ oxides)
    (entries : List (String × List (String × String))) :
    ∀ (acc : List (String × List (String × String)))
      (kc : List (String × Nat)),
      (∀ e ∈ entries, isTokStr e.1 = true ∧ rbiRowOK oxides e.2) →
      (∀ e ∈ entries, e.1 ∉ acc.map Prod.fst) →
      (entries.map Prod.fst).Nodup →
      reload_lines ⟨base ++ [("rbi", .rbiT ⟨oxides, acc⟩)], kc⟩
        (entries.map fun e => "rbi" :: e.1 :: e.2.map Prod.snd) =
        .ok ⟨base ++ [("rbi", .rbiT ⟨oxides, acc ++ entries⟩)], kc⟩ := by
  induction entries with
  | nil => intro acc kc _ _ _; simp [reload_lines]
  | cons e entries ih =>
    intro acc kc hok hfreshn hnd
    rw [List.map_cons] at hnd ⊢
    have hnd' := List.nodup_cons.mp hnd
    obtain ⟨hphase, hrow⟩ := hok e (List.mem_cons_self _ _)
    obtain ⟨mv, rest, hm, hrest, hvals⟩ : ∃ mv rest,
        e.2 = ("mode", mv) :: rest ∧ rest.map Prod.fst = oxides ∧
          ∀ q ∈ rest, isTokStr q.2 = true := by
      unfold rbiRowOK at hrow
      split at hrow
      · next m0 rest0 heq => exact ⟨m0, rest0, heq, hrow.2.1, hrow.2.2⟩
      · exact absurd hrow (by simp)
    have hstep : reload_step ⟨base ++ [("rbi", ScriptVal.rbiT ⟨oxides, acc⟩)], kc⟩
        "rbi" (e.1 :: e.2.map Prod.snd) =
        .ok ⟨base ++ [("rbi", .rbiT ⟨oxides, acc ++ [e]⟩)], kc⟩ := by
      unfold reload_step
      rw [if_neg (by decide), if_pos rfl]
      have hfind : odFind? (base ++ [("rbi", ScriptVal.rbiT ⟨oxides, acc⟩)])
          "rbi" = some (.rbiT ⟨oxides, acc⟩) := odFind?_append_self base _ _ hbase
      have hadd : rbi.add_data ⟨oxides, acc⟩ (e.1 :: e.2.map Prod.snd) =
          (⟨oxides, acc ++ [e]⟩, none) := by
        rw [hm, List.map_cons]
        show rbi.add_phase ⟨oxides, acc⟩ e.1 mv (rest.map Prod.snd) = _
        unfold rbi.add_phase
        rw [pystrip_tok e.1 hphase]
        have hlen : oxides.length = (rest.map Prod.snd).length := by
          rw [List.length_map, ← hrest, List.length_map]
        rw [if_neg (by
          show ¬oxides.length ≠ (rest.map Prod.snd).length
          omega)]
        have hzip : oxides.zip (rest.map Prod.snd) = rest := by
          rw [← hrest]
          exact zip_fst_snd rest
        rw [hzip]
        rw [fold_odSet_pairs rest [("mode", mv)] (hrest ▸ hoxnd) ?_]
        · have hset1 : odSet acc e.1 [("mode", mv)] = acc ++ [(e.1, [("mode", mv)])] :=
            odSet_fresh acc _ _ (hfreshn e (List.mem_cons_self _ _))
          rw [hset1]
          rw [odSet_append_self acc e.1 _ _ (hfreshn e (List.mem_cons_self _ _))]
          rw [show ([("mode", mv)] ++ rest : List (String × String)) =
            ("mode", mv) :: rest from rfl]
          rw [← hm]
        · intro q hq
          simp only [List.map_cons, List.map_nil, List.mem_singleton]
          intro hqm
          apply hmode
          rw [← hrest]
          exact hqm ▸ List.mem_map_of_mem Prod.fst hq
      have hset : odSet (base ++ [("rbi", ScriptVal.rbiT ⟨oxides, acc⟩)]) "rbi"
          (ScriptVal.rbiT ⟨oxides, acc ++ [e]⟩) =
          base ++ [("rbi", .rbiT ⟨oxides, acc ++ [e]⟩)] :=
        odSet_append_self base _ _ _ hbase
      simp only [hfind, hadd, hset]
    rw [show reload_lines ⟨base ++ [("rbi", ScriptVal.rbiT ⟨oxides, acc⟩)], kc⟩
        (("rbi" :: e.1 :: e.2.map Prod.snd) ::
          (entries.map fun q => "rbi" :: q.1 :: q.2.map Prod.snd)) =
        (if ("rbi" : String) = "*" then
          Except.ok (⟨base ++ [("rbi", ScriptVal.rbiT ⟨oxides, acc⟩)], kc⟩ : ScriptState)
        else match reload_step ⟨base ++ [("rbi", ScriptVal.rbiT ⟨oxides, acc⟩)], kc⟩
            "rbi" (e.1 :: e.2.map Prod.snd) with
          | .error er => .error er
          | .ok st2 => reload_lines st2
              (entries.map fun q => "rbi" :: q.1 :: q.2.map Prod.snd)) from by
      simp only [reload_lines]]
    rw [if_neg (by decide), hstep]
    rw [show (match Except.ok (⟨base ++ [("rbi", ScriptVal.rbiT ⟨oxides, acc ++ [e]⟩)],
          kc⟩ : ScriptState) with
        | Except.error er => Except.error er
        | Except.ok st2 => reload_lines st2
            (entries.map fun q => "rbi" :: q.1 :: q.2.map Prod.snd)) =
        reload_lines (⟨base ++ [("rbi", ScriptVal.rbiT ⟨oxides, acc ++ [e]⟩)],
          kc⟩ : ScriptState)
          (entries.map fun q => "rbi" :: q.1 :: q.2.map Prod.snd) from rfl]
    rw [ih (acc ++ [e]) kc (fun q hq => hok q (List.mem_cons_of_mem _ hq)) ?_ hnd'.2]
    · rw [List.append_assoc]
      rfl
    · intro q hq
      rw [List.map_append]
      intro hmem
      rcases List.mem_append.mp hmem with hmem | hmem
      · exact hfreshn q (List.mem_cons_of_mem _ hq) hmem
      · simp at hmem
        exact hnd'.1 (hmem ▸ List.mem_map_of_mem Prod.fst hq)

/-- A serialized `rbi` block over a script lacking the key recreates the
nested table; the occurrence counter is untouched. -/
theorem reload_rbi_block (st : ScriptState)
    (hfresh : "rbi" ∉ st.script.map Prod.fst) (t : rbi) (hwf : rbiWF t) :
    reload_lines st (entryTokens ("rbi", .rbiT t)) =
      .ok ⟨st.script ++ [("rbi", .rbiT t)], st.keycount⟩ := by
  obtain ⟨oxides, entries⟩ := t
  obtain ⟨hox, hoxnd, hmode, hnd, hrows⟩ := hwf
  have hstep : reload_step st "rbi" oxides =
      .ok ⟨st.script ++ [("rbi", .rbiT ⟨oxides, []⟩)], st.keycount⟩ := by
    unfold reload_step
    rw [if_neg (by decide), if_pos rfl]
    have hfind : odFind? st.script "rbi" = none :=
      odFind?_not_mem st.script _ hfresh
    have hmk : rbi.make oxides = ⟨oxides, []⟩ := by
      unfold rbi.make
      rw [show oxides.map pystrip = oxides.map id from
        List.map_congr_left fun ox h => pystrip_tok ox (hox ox h)]
      rw [List.map_id]
    have hset : odSet st.script "rbi" (ScriptVal.rbiT (rbi.make oxides)) =
        st.script ++ [("rbi", .rbiT ⟨oxides, []⟩)] := by
      rw [hmk]
      exact odSet_fresh st.script _ _ hfresh
    simp only [hfind, hset]
  show reload_lines st (("rbi" :: oxides) ::
    (entries.map fun e => "rbi" :: e.1 :: e.2.map Prod.snd)) = _
  rw [show reload_lines st (("rbi" :: oxides) ::
      (entries.map fun q => "rbi" :: q.1 :: q.2.map Prod.snd)) =
      (if ("rbi" : String) = "*" then Except.ok st
      else match reload_step st "rbi" oxides with
        | .error er => .error er
        | .ok st2 => reload_lines st2
            (entries.map fun q => "rbi" :: q.1 :: q.2.map Prod.snd)) from by
    simp only [reload_lines]]
  rw [if_neg (by decide), hstep]
  rw [show (match Except.ok (⟨st.script ++ [("rbi", ScriptVal.rbiT ⟨oxides, []⟩)],
        st.keycount⟩ : ScriptState) with
      | Except.error er => Except.error er
      | Except.ok st2 => reload_lines st2
          (entries.map fun q => "rbi" :: q.1 :: q.2.map Prod.snd)) =
      reload_lines (⟨st.script ++ [("rbi", ScriptVal.rbiT ⟨oxides, []⟩)],
        st.keycount⟩ : ScriptState)
        (entries.map fun q => "rbi" :: q.1 :: q.2.map Prod.snd) from rfl]
  rw [reload_rbi_tail st.script hfresh oxides hoxnd hmode entries []
    st.keycount hrows (by simp) hnd]
  rfl

/-- No serialized block of a well-formed entry contains a `*` sentinel
line. -/
theorem entryTokens_no_star (kv : String × ScriptVal) (h : entryOK kv) :
    ∀ line ∈ entryTokens kv, ∀ k vs, line = k :: vs → k ≠ "*" := by
  intro line hline k vs heq
  obtain ⟨kk, v⟩ := kv
  cases v with
  | scalar o =>
    cases o with
    | none => exact absurd h (by simp [entryOK])
    | some v =>
      obtain ⟨_, hstar, _, _, _⟩ := h
      simp only [entryTokens, List.mem_singleton] at hline
      rw [hline] at heq
      exact (List.cons.injEq _ _ _ _ ▸ heq).1 ▸ hstar
  | rows items =>
    obtain ⟨_, hstar, _, _, _, _⟩ := h
    simp only [entryTokens, List.mem_map] at hline
    obtain ⟨it, _, hl⟩ := hline
    rw [← hl] at heq
    exact (List.cons.injEq _ _ _ _ ▸ heq).1 ▸ hstar
  | xyzT m =>
    obtain ⟨hkey, _, _, _⟩ := h
    simp only [entryTokens, List.mem_map] at hline
    obtain ⟨e, _, hl⟩ := hline
    rw [← hl] at heq
    have hk2 : kk = k := (List.cons.injEq _ _ _ _ ▸ heq).1
    rw [← hk2]
    have hkk : kk = "xyzguess" := hkey
    rw [hkk]
    decide
  | rbiT t =>
    obtain ⟨hkey, _⟩ := h
    simp only [entryTokens, List.mem_cons, List.mem_map] at hline
    rcases hline with hl | ⟨e, _, hl⟩
    · rw [hl] at heq
      have hk2 : ("rbi" : String) = k := (List.cons.injEq _ _ _ _ ▸ heq).1
      rw [← hk2]
      decide
    · rw [← hl] at heq
      have hk2 : ("rbi" : String) = k := (List.cons.injEq _ _ _ _ ▸ heq).1
      rw [← hk2]
      decide

/-- A well-formed entry's serialized token block, run over a script lacking
the key and a counter lacking the key, appends exactly that entry and
touches no other key's count. -/
theorem reload_entry_block (st : ScriptState) (kv : String × ScriptVal)
    (h : entryOK kv) (hfresh : kv.1 ∉ st.script.map Prod.fst)
    (hkc : odFind? st.keycount kv.1 = none) :
    ∃ kc2, reload_lines st (entryTokens kv) = .ok ⟨st.script ++ [kv], kc2⟩ ∧
      ∀ x, x ≠ kv.1 → odFind? kc2 x = odFind? st.keycount x := by
  obtain ⟨kk, v⟩ := kv
  cases v with
  | scalar o =>
    cases o with
    | none => exact absurd h (by simp [entryOK])
    | some v =>
      obtain ⟨_, hstar, hx, hr, hv⟩ := h
      refine ⟨odSet st.keycount kk 1, ?_, ?_⟩
      · show reload_lines st [kk :: pysplit (optStr (some v))] = _
        rw [show optStr (some v) = v from rfl]
        rw [reload_scalar_block st kk v hstar hx hr hv hfresh hkc]
      · intro x hx2
        exact odFind?_set_ne _ _ _ _ hx2
  | rows items =>
    obtain ⟨_, hstar, hx, hr, hlen, hitems⟩ := h
    obtain ⟨kc2, hrun, hpres⟩ := reload_rows_block kk hstar hx hr items hlen
      hitems st hfresh hkc
    exact ⟨kc2, hrun, hpres⟩
  | xyzT m =>
    obtain ⟨hkey, hm, hnd, _⟩ := h
    have hkk : kk = "xyzguess" := hkey
    subst hkk
    refine ⟨st.keycount, ?_, fun x _ => rfl⟩
    show reload_lines st (m.map fun e => "xyzguess" :: e.1 :: e.2) = _
    rw [reload_xyz_block st hfresh m hm hnd]
  | rbiT t =>
    obtain ⟨hkey, hwf⟩ := h
    have hkk : kk = "rbi" := hkey
    subst hkk
    refine ⟨st.keycount, ?_, fun x _ => rfl⟩
    rw [reload_rbi_block st hfresh t hwf]

/-- Running the serialized blocks of a list of well-formed entries over
mutually fresh keys appends them all in order. -/
theorem reload_blocks (rest : Script) :
    ∀ st : ScriptState,
      (∀ kv ∈ rest, entryOK kv) →
      (∀ kv ∈ rest, kv.1 ∉ st.script.map Prod.fst) →
      (rest.map Prod.fst).Nodup →
      (∀ kv ∈ rest, odFind? st.keycount kv.1 = none) →
      ∃ kc2, reload_lines st (rest.flatMap entryTokens) =
        .ok ⟨st.script ++ rest, kc2⟩ := by
  induction rest with
  | nil =>
    intro st _ _ _ _
    exact ⟨st.keycount, by simp [reload_lines]⟩
  | cons kv rest ih =>
    intro st hok hfresh hnd hkc
    rw [List.map_cons] at hnd
    have hnd' := List.nodup_cons.mp hnd
    obtain ⟨kc1, hrun1, hpres1⟩ := reload_entry_block st kv
      (hok kv (List.mem_cons_self _ _)) (hfresh kv (List.mem_cons_self _ _))
      (hkc kv (List.mem_cons_self _ _))
    rw [List.flatMap_cons]
    rw [reload_append (entryTokens kv) (rest.flatMap entryTokens)
      (entryTokens_no_star kv (hok kv (List.mem_cons_self _ _))) st]
    rw [hrun1]
    have hne : ∀ q ∈ rest, q.1 ≠ kv.1 := by
      intro q hq hmem
      exact hnd'.1 (hmem ▸ List.mem_map_of_mem Prod.fst hq)
    obtain ⟨kc2, hrun2⟩ := ih ⟨st.script ++ [kv], kc1⟩
      (fun q hq => hok q (List.mem_cons_of_mem _ hq))
      (fun q hq => by
        rw [List.map_append]
        intro hmem
        rcases List.mem_append.mp hmem with hmem | hmem
        · exact hfresh q (List.mem_cons_of_mem _ hq) hmem
        · simp at hmem
          exact hne q hq hmem)
      hnd'.2
      (fun q hq => by
        show odFind? kc1 q.1 = none
        rw [hpres1 q.1 (hne q hq)]
        exact hkc q (List.mem_cons_of_mem _ hq))
    refine ⟨kc2, ?_⟩
    rw [show (match Except.ok (⟨st.script ++ [kv], kc1⟩ : ScriptState) with
        | Except.error er => Except.error er
        | Except.ok st1 => reload_lines st1 (rest.flatMap entryTokens)) =
        reload_lines (⟨st.script ++ [kv], kc1⟩ : ScriptState)
          (rest.flatMap entryTokens) from rfl]
    rw [hrun2]
    rw [List.append_assoc]
    rfl

/-- Tokenizing a serialized well-formed script, line by line, yields the
per-entry token blocks. -/
theorem map_tokenize_save (m : Script) (h : ∀ kv ∈ m, entryOK kv)
    (longest : Nat) :
    (m.flatMap fun kv => saveEntry longest kv.1 kv.2).map tokenize =
      m.flatMap entryTokens := by
  induction m with
  | nil => rfl
  | cons kv rest ih =>
    rw [List.flatMap_cons, List.flatMap_cons, List.map_append]
    rw [saveEntry_tokens longest kv (h kv (List.mem_cons_self _ _))]
    rw [ih fun q hq => h q (List.mem_cons_of_mem _ hq)]

/-- C1 counterexample: a one-entry model (no `autoexit` key) does not round
trip — re-parsing starts from reload's defaults, so the result additionally
contains `autoexit -> yes`. -/
theorem script_roundtrip_counterexample :
    reparse_script (save_script [("axfile", ScriptVal.scalar (some "x"))]) ≠
      Except.ok [("axfile", ScriptVal.scalar (some "x"))] := by decide

theorem odFind?_cons_ne {α : Type} (kv : String × α) (l : List (String × α))
    (k : String) (h : ¬ kv.1 = k) : odFind? (kv :: l) k = odFind? l k := by
  simp [odFind?, h]

/-- C1 (amended): for every well-formed script model — one starting with the
two entries reload's defaults pre-install (a defined `axfile` scalar, then
`autoexit`), with pairwise-distinct comment-free token keys, space-normalized
non-`ask` scalar and row values, row lists of length at least two, a nonempty
`xyzguess` table and a well-formed `rbi` table — serializing with
`Context.save_script` and re-parsing the produced text with the script-file
grammar of `Context.reload` yields the model back key-for-key and
value-for-value: scalars stay scalars, row lists keep their ordered rows, and
the nested `xyzguess` and `rbi` tables are reproduced. -/
theorem script_roundtrip (m : Script) (h : modelWF m) :
    reparse_script (save_script m) = .ok m := by
  unfold modelWF at h
  split at h
  case _ m0 a b tail =>
    obtain ⟨hnd, hok⟩ := h
    have hokA : entryOK ("axfile", ScriptVal.scalar (some a)) :=
      hok _ (List.mem_cons_self _ _)
    have hokB : entryOK ("autoexit", ScriptVal.scalar (some b)) :=
      hok _ (List.mem_cons_of_mem _ (List.mem_cons_self _ _))
    have hA : scalarOK a := hokA.2.2.2.2
    have hB : scalarOK b := hokB.2.2.2.2
    rw [List.map_cons, List.map_cons] at hnd
    have hnd1 := List.nodup_cons.mp hnd
    have hnd2 := List.nodup_cons.mp hnd1.2
    have hneAx : ∀ q ∈ tail, q.1 ≠ "axfile" := by
      intro q hq hmem
      apply hnd1.1
      apply List.mem_cons_of_mem
      have h2 : q.1 ∈ List.map Prod.fst tail := List.mem_map_of_mem Prod.fst hq
      rw [hmem] at h2
      exact h2
    have hneAuto : ∀ q ∈ tail, q.1 ≠ "autoexit" := by
      intro q hq hmem
      apply hnd2.1
      have h2 : q.1 ∈ List.map Prod.fst tail := List.mem_map_of_mem Prod.fst hq
      rw [hmem] at h2
      exact h2
    unfold reparse_script parse_script_file save_script
    rw [map_tokenize_save _ hok _]
    rw [List.flatMap_cons, List.flatMap_cons]
    simp only [entryTokens, List.singleton_append]
    rw [show optStr (some a) = a from rfl, show optStr (some b) = b from rfl]
    have hrunAx : reload_lines defaultScriptState
        (("axfile" :: pysplit a) :: ("autoexit" :: pysplit b) ::
          tail.flatMap entryTokens) =
        reload_lines ⟨[("axfile", ScriptVal.scalar (some a)),
            ("autoexit", ScriptVal.scalar (some "yes"))], [("axfile", 1)]⟩
          (("autoexit" :: pysplit b) :: tail.flatMap entryTokens) := by
      rw [show reload_lines defaultScriptState
          (("axfile" :: pysplit a) :: ("autoexit" :: pysplit b) ::
            tail.flatMap entryTokens) =
          (if ("axfile" : String) = "*" then Except.ok defaultScriptState
          else match reload_step defaultScriptState "axfile" (pysplit a) with
            | .error er => .error er
            | .ok st2 => reload_lines st2
                (("autoexit" :: pysplit b) :: tail.flatMap entryTokens)) from by
        simp only [reload_lines]]
      rw [if_neg (by decide)]
      rw [reload_scalar_step defaultScriptState "axfile" a (by decide)
        (by decide) hA rfl]
      rw [show odSet defaultScriptState.script "axfile"
          (ScriptVal.scalar (some a)) =
          [("axfile", ScriptVal.scalar (some a)),
            ("autoexit", ScriptVal.scalar (some "yes"))] from by
        simp [defaultScriptState, odSet]]
      rfl
    have hrunAuto : reload_lines ⟨[("axfile", ScriptVal.scalar (some a)),
          ("autoexit", ScriptVal.scalar (some "yes"))], [("axfile", 1)]⟩
        (("autoexit" :: pysplit b) :: tail.flatMap entryTokens) =
        reload_lines ⟨[("axfile", ScriptVal.scalar (some a)),
            ("autoexit", ScriptVal.scalar (some b))],
          [("axfile", 1), ("autoexit", 1)]⟩ (tail.flatMap entryTokens) := by
      rw [show reload_lines ⟨[("axfile", ScriptVal.scalar (some a)),
            ("autoexit", ScriptVal.scalar (some "yes"))], [("axfile", 1)]⟩
          (("autoexit" :: pysplit b) :: tail.flatMap entryTokens) =
          (if ("autoexit" : String) = "*" then
            Except.ok (⟨[("axfile", ScriptVal.scalar (some a)),
              ("autoexit", ScriptVal.scalar (some "yes"))],
              [("axfile", 1)]⟩ : ScriptState)
          else match reload_step ⟨[("axfile", ScriptVal.scalar (some a)),
              ("autoexit", ScriptVal.scalar (some "yes"))], [("axfile", 1)]⟩
              "autoexit" (pysplit b) with
            | .error er => .error er
            | .ok st2 => reload_lines st2 (tail.flatMap entryTokens)) from by
        simp only [reload_lines]]
      rw [if_neg (by decide)]
      have hkcB : odFind? ([("axfile", 1)] : List (String × Nat)) "autoexit" =
          none := by decide
      rw [reload_scalar_step ⟨[("axfile", ScriptVal.scalar (some a)),
          ("autoexit", ScriptVal.scalar (some "yes"))], [("axfile", 1)]⟩
        "autoexit" b (by decide) (by decide) hB hkcB]
      rw [show odSet (ScriptState.mk [("axfile", ScriptVal.scalar (some a)),
            ("autoexit", ScriptVal.scalar (some "yes"))] [("axfile", 1)]).script
          "autoexit" (ScriptVal.scalar (some b)) =
          [("axfile", ScriptVal.scalar (some a)),
            ("autoexit", ScriptVal.scalar (some b))] from by
        simp [odSet]]
      rw [show odSet (ScriptState.mk [("axfile", ScriptVal.scalar (some a)),
            ("autoexit", ScriptVal.scalar (some "yes"))] [("axfile", 1)]).keycount
          "autoexit" 1 = [("axfile", 1), ("autoexit", 1)] from by
        simp [odSet]]
    rw [hrunAx, hrunAuto]
    obtain ⟨kc2, hrun⟩ := reload_blocks tail
      ⟨[("axfile", ScriptVal.scalar (some a)),
        ("autoexit", ScriptVal.scalar (some b))],
        [("axfile", 1), ("autoexit", 1)]⟩
      (fun q hq => hok q (List.mem_cons_of_mem _ (List.mem_cons_of_mem _ hq)))
      (fun q hq => by
        intro hmem
        simp only [List.map_cons, List.map_nil, List.mem_cons,
          List.not_mem_nil, or_false] at hmem
        rcases hmem with h1 | h1
        · exact hneAx q hq h1
        · exact hneAuto q hq h1)
      hnd2.2
      (fun q hq => by
        show odFind? [("axfile", 1), ("autoexit", 1)] q.1 = none
        rw [odFind?_cons_ne _ _ _ (fun hh => hneAx q hq hh.symm)]
        rw [odFind?_cons_ne _ _ _ (fun hh => hneAuto q hq hh.symm)]
        rfl)
    rw [hrun]
    rfl
  case _ =>
    exact absurd h (by simp)

/-- Witness: a concrete well-formed model holding a scalar, a row list, an
`xyzguess` table and an `rbi` table round-trips through `save_script` and the
reload grammar. -/
theorem script_roundtrip_witness :
    reparse_script (save_script
      [("axfile", ScriptVal.scalar (some "mb50NCKFMASHTO")),
        ("autoexit", ScriptVal.scalar (some "yes")),
        ("which", ScriptVal.scalar (some "mu pa")),
        ("dogmin", ScriptVal.rows [some "yes 1", some "no"]),
        ("xyzguess", ScriptVal.xyzT
          [("x(g)", ["0.11", "0.2"]), ("z(g)", ["0.5"])]),
        ("rbi", ScriptVal.rbiT ⟨["SiO2", "Al2O3"],
          [("g", [("mode", "0.1"), ("SiO2", "0.5"), ("Al2O3", "0.4")]),
            ("mu", [("mode", "0.2"), ("SiO2", "0.3"), ("Al2O3", "0.1")])]⟩)]) =
      Except.ok
      [("axfile", ScriptVal.scalar (some "mb50NCKFMASHTO")),
        ("autoexit", ScriptVal.scalar (some "yes")),
        ("which", ScriptVal.scalar (some "mu pa")),
        ("dogmin", ScriptVal.rows [some "yes 1", some "no"]),
        ("xyzguess", ScriptVal.xyzT
          [("x(g)", ["0.11", "0.2"]), ("z(g)", ["0.5"])]),
        ("rbi", ScriptVal.rbiT ⟨["SiO2", "Al2O3"],
          [("g", [("mode", "0.1"), ("SiO2", "0.5"), ("Al2O3", "0.4")]),
            ("mu", [("mode", "0.2"), ("SiO2", "0.3"), ("Al2O3", "0.1")])]⟩)] :=
  script_roundtrip _ (by decide)

end TawnyCalc
